import Mathlib

/-! InPlace: object pool with heap overflow, and the inline/heap array.

A shallow embedding of `src/InPlace.h`.

* A payload type `T` with constructor arguments `A` is described by a `Payload T A`
  record: `T(args...)`, `T()` and, when the type has them, its two lifecycle hooks
  (`has_it<T>::value` is `hooks.isSome`).  `T::operator=` is value assignment.
* `ObjectInPlace` is one pool slot: the `std::atomic_flag` base and the payload.
* `ObjectFactory` is the array `m_values` of slots together with the heap on which
  `ObjectInHeap` instances live.  `N` is the length of `m_values`.
* `new (std::nothrow)` is given its result from outside: a boolean says whether the
  allocation succeeds.  Every allocation gets a fresh identity (`next`).
* `Array` is the inline array `inplace` (its length is `N`) and the `unique_ptr`
  `inheap`, which owns its buffer: the buffer's elements are stored with the owner.
-/

set_option autoImplicit false

namespace InPlace

/-! ## Payload types -/

/-- The two lifecycle hooks a payload type may declare. Each acts on the payload in place. -/
structure Hooks (T A : Type) where
  init_from_factory : A → T → T
  clear_from_factory : T → T

/-- What the templates use of a payload type `T`: `T(args...)`, `T()`, and the hooks if
`has_it<T>::value` holds. -/
structure Payload (T A : Type) where
  construct : A → T
  construct0 : T
  hooks : Option (Hooks T A)

variable {T A : Type}

/-- `Object<T>::init_from_factory`: the payload's own hook when it has one, otherwise
`Q::operator=(std::move(Q(args...)))`. -/
def Object.init_from_factory (P : Payload T A) (args : A) (x : T) : T :=
  match P.hooks with
  | some h => h.init_from_factory args x
  | none => P.construct args

/-- `Object<T>::clear_from_factory`: the payload's own hook when it has one, otherwise
`Q::operator=(std::move(Q()))`. -/
def Object.clear_from_factory (P : Payload T A) (x : T) : T :=
  match P.hooks with
  | some h => h.clear_from_factory x
  | none => P.construct0

/-! ## Outcomes of code that may hit a failed assertion or a fault -/

/-- Result of running code that may stop at a failed `assert` or at a write through a null
pointer. `fatal` carries the state at the point where execution stopped. -/
inductive Outcome (σ : Type) where
  | done (s : σ)
  | fatal (s : σ)
  deriving DecidableEq, Repr

/-! ## Pool slots -/

/-- One pool slot, `ObjectInPlace<T, Base>`: `flag` is the `std::atomic_flag` base
(`true` = set = claimed), `obj` the payload. -/
structure ObjectInPlace (T : Type) where
  flag : Bool
  obj : T
  deriving DecidableEq, Repr

/-- `std::atomic_flag::test_and_set`: returns the previous value and sets the flag. -/
def ObjectInPlace.test_and_set (s : ObjectInPlace T) : Bool × ObjectInPlace T :=
  (s.flag, { s with flag := true })

/-- `std::atomic_flag::clear`. -/
def ObjectInPlace.clear (s : ObjectInPlace T) : ObjectInPlace T :=
  { s with flag := false }

/-- The default constructor `ObjectInPlace()` used for the elements of `m_values`:
`Base(tag())` builds `T()`, then the flag is cleared. -/
def ObjectInPlace.construct (P : Payload T A) : ObjectInPlace T :=
  ObjectInPlace.clear ⟨false, P.construct0⟩

/-- `Base::init_from_factory(args...)` applied to the slot's payload. -/
def ObjectInPlace.init_from_factory (P : Payload T A) (args : A) (s : ObjectInPlace T) :
    ObjectInPlace T :=
  { s with obj := Object.init_from_factory P args s.obj }

/-- `Base::clear_from_factory()` applied to the slot's payload. -/
def ObjectInPlace.clear_from_factory (P : Payload T A) (s : ObjectInPlace T) :
    ObjectInPlace T :=
  { s with obj := Object.clear_from_factory P s.obj }

/-- `ObjectInPlace::release_to_factory`. With `debug` (no `NDEBUG`) the `assert` evaluates
`test_and_set` and stops when it returns `false`; with `NDEBUG` the `assert` is not
evaluated. Then the payload is cleared, then the flag. -/
def ObjectInPlace.release_to_factory (P : Payload T A) (debug : Bool) (s : ObjectInPlace T) :
    Outcome (ObjectInPlace T) :=
  if debug then
    if (ObjectInPlace.test_and_set s).1 then
      Outcome.done (ObjectInPlace.clear
        (ObjectInPlace.clear_from_factory P (ObjectInPlace.test_and_set s).2))
    else
      Outcome.fatal (ObjectInPlace.test_and_set s).2
  else
    Outcome.done (ObjectInPlace.clear (ObjectInPlace.clear_from_factory P s))

/-- `ObjectInPlace::~ObjectInPlace`: `assert(!test_and_set())`. -/
def ObjectInPlace.destroy (debug : Bool) (s : ObjectInPlace T) : Outcome (ObjectInPlace T) :=
  if debug then
    if !(ObjectInPlace.test_and_set s).1 then
      Outcome.done (ObjectInPlace.test_and_set s).2
    else
      Outcome.fatal (ObjectInPlace.test_and_set s).2
  else
    Outcome.done s

/-! ## The factory -/

/-- The heap on which `ObjectInHeap` instances live: `objs` are the live instances with
their identity, `next` the identity the next successful `new` returns. -/
structure ObjHeap (T : Type) where
  next : Nat
  objs : List (Nat × T)
  deriving DecidableEq, Repr

/-- `new (std::nothrow) ObjectInHeap<T, Base>(args...)` when it succeeds: the new instance
holds `T(args...)`. -/
def ObjHeap.alloc (h : ObjHeap T) (v : T) : Nat × ObjHeap T :=
  (h.next, ⟨h.next + 1, (h.next, v) :: h.objs⟩)

/-- `delete this` of `ObjectInHeap::release_to_factory`. -/
def ObjHeap.delete (h : ObjHeap T) (a : Nat) : ObjHeap T :=
  ⟨h.next, h.objs.filter (fun p => p.1 != a)⟩

/-- The value `Base*` returned by `alloc`: null, a pointer to the slot `m_values.v[i]`, or a
pointer to an `ObjectInHeap`. -/
inductive Handle where
  | null
  | inplace (i : Nat)
  | inheap (a : Nat)
  deriving DecidableEq, Repr

/-- An `ObjectFactory<T, N, Base>` with the heap it allocates from. `N = m_values.length`. -/
structure ObjectFactory (T : Type) where
  m_values : List (ObjectInPlace T)
  heap : ObjHeap T
  deriving DecidableEq, Repr

/-- A freshly constructed factory of size `N`: each element of `m_values` is default
constructed. -/
def ObjectFactory.construct (P : Payload T A) (N : Nat) (heap : ObjHeap T) : ObjectFactory T :=
  ⟨List.replicate N (ObjectInPlace.construct P), heap⟩

/-- What the loop of `alloc` leaves behind. `hit` is the index of the slot at which
`test_and_set` returned `false`, if any; `values` the slots afterwards; `visited` the indices
on which `test_and_set` was executed, in execution order. -/
structure ScanResult (T : Type) where
  hit : Option Nat
  values : List (ObjectInPlace T)
  visited : List Nat
  deriving DecidableEq, Repr

/-- The loop `for (it = m_values.begin(); it != m_values.end(); ++it)` of `alloc`, run on
the slots from `it` (of index `base`) to the end. For `N = 0` both `begin()` and `end()` are
null and the body does not run. -/
def ObjectFactory.scan (P : Payload T A) (args : A) :
    Nat → List (ObjectInPlace T) → ScanResult T
  | _, [] => ⟨none, [], []⟩
  | base, s :: rest =>
    if !(ObjectInPlace.test_and_set s).1 then
      ⟨some base,
        ObjectInPlace.init_from_factory P args (ObjectInPlace.test_and_set s).2 :: rest,
        [base]⟩
    else
      let r := ObjectFactory.scan P args (base + 1) rest
      ⟨r.hit, (ObjectInPlace.test_and_set s).2 :: r.values, base :: r.visited⟩

/-- Result of `alloc`: the returned pointer, the factory afterwards, and the indices of the
slots the scan executed `test_and_set` on. -/
structure AllocResult (T : Type) where
  handle : Handle
  factory : ObjectFactory T
  visited : List Nat
  deriving DecidableEq, Repr

/-- `ObjectFactory::alloc(args...)`. `heapOk` is whether `new (std::nothrow)` succeeds, should
it be reached. -/
def ObjectFactory.alloc (P : Payload T A) (heapOk : Bool) (f : ObjectFactory T) (args : A) :
    AllocResult T :=
  let r := ObjectFactory.scan P args 0 f.m_values
  match r.hit with
  | some i => ⟨Handle.inplace i, ⟨r.values, f.heap⟩, r.visited⟩
  | none =>
    if heapOk then
      ⟨Handle.inheap (f.heap.alloc (P.construct args)).1,
        ⟨r.values, (f.heap.alloc (P.construct args)).2⟩, r.visited⟩
    else
      ⟨Handle.null, ⟨r.values, f.heap⟩, r.visited⟩

/-- The payload reached through a handle (`operator*` on the returned `Base*`). -/
def ObjectFactory.payload (f : ObjectFactory T) : Handle → Option T
  | Handle.null => none
  | Handle.inplace i => (f.m_values[i]?).map (fun s => s.obj)
  | Handle.inheap a => f.heap.objs.lookup a

/-- The virtual call `handle->release_to_factory()`: `ObjectInPlace::release_to_factory` on
the slot for a pooled handle, `delete this` for a heap instance. -/
def ObjectFactory.release_to_factory (P : Payload T A) (debug : Bool) (f : ObjectFactory T) :
    Handle → Outcome (ObjectFactory T)
  | Handle.null => Outcome.fatal f
  | Handle.inplace i =>
    match f.m_values[i]? with
    | none => Outcome.fatal f
    | some s =>
      match ObjectInPlace.release_to_factory P debug s with
      | Outcome.done s1 => Outcome.done ⟨f.m_values.set i s1, f.heap⟩
      | Outcome.fatal s1 => Outcome.fatal ⟨f.m_values.set i s1, f.heap⟩
  | Handle.inheap a => Outcome.done ⟨f.m_values, f.heap.delete a⟩

/-- Consecutive `alloc` calls with no release in between, heap allocation succeeding or not
as `heapOk` says; returns the handles in call order and the final factory. -/
def ObjectFactory.allocMany (P : Payload T A) (heapOk : Bool) :
    ObjectFactory T → List A → List Handle × ObjectFactory T
  | f, [] => ([], f)
  | f, a :: rest =>
    let r := ObjectFactory.alloc P heapOk f a
    let q := ObjectFactory.allocMany P heapOk r.factory rest
    (r.handle :: q.1, q.2)

/-! ## Interleaved execution of `alloc` and `release_to_factory`

Calls run concurrently; each executes its atomic operations on the slot flags
(`test_and_set`, `clear`) one at a time, and between two of them any other call may run.
The payload operations between them are taken as one step each. -/

/-- Where a call in progress stands: what it executes next. -/
inductive Op (A : Type) where
  | scan (args : A) (it : Nat)
  | init (args : A) (it : Nat)
  | check (i : Nat)
  | reset (i : Nat)
  | unflag (i : Nat)
  | finished
  deriving DecidableEq

/-- Whether a call in progress is using slot `i`: an `alloc` whose `test_and_set` on the slot
returned `false` and which has not returned yet, or a `release_to_factory` on the slot that
has not cleared the flag yet. -/
def Op.holds {A : Type} : Op A → Nat → Bool
  | Op.scan _ _, _ => false
  | Op.init _ it, i => it == i
  | Op.check j, i => j == i
  | Op.reset j, i => j == i
  | Op.unflag j, i => j == i
  | Op.finished, _ => false

/-- The factory shared by the callers, the calls in progress, the handles that `alloc` has
returned and that have not been passed to `release_to_factory` yet (the live instances), and
whether an assertion has failed. -/
structure Sys (T A : Type) where
  factory : ObjectFactory T
  calls : List (Op A)
  live : List Handle
  aborted : Bool

/-- What can happen next: a caller enters `alloc(args...)`; a caller enters
`release_to_factory` on the `k`-th live handle; the call number `t` executes its next step
(`heapOk` is the result of `new (std::nothrow)` if that is the step). -/
inductive Action (A : Type) where
  | callAlloc (args : A)
  | callRelease (k : Nat)
  | step (t : Nat) (heapOk : Bool)

/-- A factory of size `N` just constructed, nothing in progress, no live instance. -/
def Sys.init (P : Payload T A) (N : Nat) (heap : ObjHeap T) : Sys T A :=
  ⟨ObjectFactory.construct P N heap, [], [], false⟩

/-- The next step of call `t`, which stands at `op`.
* `scan args it`: the loop of `alloc` at `it`. Inside the array it executes
  `it->test_and_set()` and goes to `init` or to the next slot; at `end()` it executes
  `new (std::nothrow) ObjectInHeap(args...)` and returns.
* `init args it`: `it->init_from_factory(args...); return it;`.
* `check i`, `reset i`, `unflag i`: the three statements of
  `ObjectInPlace::release_to_factory` on slot `i`. -/
def Sys.stepOp (P : Payload T A) (s : Sys T A) (t : Nat) (heapOk : Bool) :
    Op A → Option (Sys T A)
  | Op.scan args it =>
    match s.factory.m_values[it]? with
    | some slot =>
      if !(ObjectInPlace.test_and_set slot).1 then
        some { s with
          factory := ⟨s.factory.m_values.set it (ObjectInPlace.test_and_set slot).2,
            s.factory.heap⟩
          calls := s.calls.set t (Op.init args it) }
      else
        some { s with
          factory := ⟨s.factory.m_values.set it (ObjectInPlace.test_and_set slot).2,
            s.factory.heap⟩
          calls := s.calls.set t (Op.scan args (it + 1)) }
    | none =>
      if heapOk then
        some { s with
          factory := ⟨s.factory.m_values, (s.factory.heap.alloc (P.construct args)).2⟩
          calls := s.calls.set t Op.finished
          live := s.live ++ [Handle.inheap (s.factory.heap.alloc (P.construct args)).1] }
      else
        some { s with calls := s.calls.set t Op.finished }
  | Op.init args it =>
    match s.factory.m_values[it]? with
    | none => none
    | some slot =>
      some { s with
        factory := ⟨s.factory.m_values.set it (ObjectInPlace.init_from_factory P args slot),
          s.factory.heap⟩
        calls := s.calls.set t Op.finished
        live := s.live ++ [Handle.inplace it] }
  | Op.check i =>
    match s.factory.m_values[i]? with
    | none => none
    | some slot =>
      if (ObjectInPlace.test_and_set slot).1 then
        some { s with
          factory := ⟨s.factory.m_values.set i (ObjectInPlace.test_and_set slot).2,
            s.factory.heap⟩
          calls := s.calls.set t (Op.reset i) }
      else
        some { s with
          factory := ⟨s.factory.m_values.set i (ObjectInPlace.test_and_set slot).2,
            s.factory.heap⟩
          calls := s.calls.set t Op.finished
          aborted := true }
  | Op.reset i =>
    match s.factory.m_values[i]? with
    | none => none
    | some slot =>
      some { s with
        factory := ⟨s.factory.m_values.set i (ObjectInPlace.clear_from_factory P slot),
          s.factory.heap⟩
        calls := s.calls.set t (Op.unflag i) }
  | Op.unflag i =>
    match s.factory.m_values[i]? with
    | none => none
    | some slot =>
      some { s with
        factory := ⟨s.factory.m_values.set i (ObjectInPlace.clear slot), s.factory.heap⟩
        calls := s.calls.set t Op.finished }
  | Op.finished => none

/-- One action on the system; `none` when the action is not possible in this state (after
a failed assertion nothing runs any more; `release_to_factory` is called on live handles
only). With `debug` the release starts at the `assert`, with `NDEBUG` after it. -/
def Sys.step (P : Payload T A) (debug : Bool) (s : Sys T A) : Action A → Option (Sys T A)
  | Action.callAlloc args =>
    if s.aborted then none
    else some { s with calls := s.calls ++ [Op.scan args 0] }
  | Action.callRelease k =>
    if s.aborted then none
    else
      match s.live[k]? with
      | none => none
      | some Handle.null => none
      | some (Handle.inplace i) =>
        some { s with
          calls := s.calls ++ [if debug then Op.check i else Op.reset i]
          live := s.live.eraseIdx k }
      | some (Handle.inheap a) =>
        some { s with
          factory := ⟨s.factory.m_values, s.factory.heap.delete a⟩
          live := s.live.eraseIdx k }
  | Action.step t heapOk =>
    if s.aborted then none
    else
      match s.calls[t]? with
      | none => none
      | some op => Sys.stepOp P s t heapOk op

/-- A sequence of actions, each possible in the state the previous ones lead to. -/
def Sys.run (P : Payload T A) (debug : Bool) : Sys T A → List (Action A) → Option (Sys T A)
  | s, [] => some s
  | s, a :: rest =>
    match Sys.step P debug s a with
    | none => none
    | some s1 => Sys.run P debug s1 rest

/-- The flag of slot `j` (`false` outside the array). -/
def ObjectFactory.flagAt (f : ObjectFactory T) (j : Nat) : Bool :=
  match f.m_values[j]? with
  | some slot => slot.flag
  | none => false

/-- How many users slot `i` has: the live handles that point to it plus the calls in
progress that are using it. -/
def Sys.holders (s : Sys T A) (i : Nat) : Nat :=
  s.live.count (Handle.inplace i) + s.calls.countP (fun op => op.holds i)

/-- The invariant of the interleaved execution: a slot has no user while its flag is free
and at most one while it is claimed. -/
def Sys.Inv (s : Sys T A) : Prop :=
  ∀ i, s.holders i ≤ (if s.factory.flagAt i then 1 else 0)

/-! ## The inline/heap array -/

/-- The allocator behind `new (std::nothrow) T[size]` and `delete[]`: `next` is the identity
the next successful allocation gets, `live` the allocations not yet deleted. -/
structure ArrayHeap where
  next : Nat
  live : List Nat
  deriving DecidableEq

/-- A buffer `T[]` owned by a `std::unique_ptr<T[]>`: the identity of the allocation and its
elements (as many as were allocated). -/
structure HeapArray (T : Type) where
  addr : Nat
  elems : List T
  deriving DecidableEq

/-- A `T*` into an `Array`: null, the start of the inline array, or the start of the heap
allocation `addr`. -/
inductive Ptr where
  | null
  | inplace
  | inheap (addr : Nat)
  deriving DecidableEq

/-- `Values<T, N>::begin()` on the array `v` with `N = v.length`: the specialisation for
`N = 0` returns `nullptr`. -/
def Values.begin (v : List T) : Ptr :=
  if v.length = 0 then Ptr.null else Ptr.inplace

/-- `Array<T, N>`: `inplace` is `Values<T, N>` (`N = inplace.length`), `inheap` the
`std::unique_ptr<T[]>`, `none` when it is null. -/
structure Array (T : Type) where
  inplace : List T
  inheap : Option (HeapArray T)
  deriving DecidableEq

/-- The template parameter `N` of an `Array<T, N>`. -/
def Array.N (a : Array T) : Nat := a.inplace.length

/-- `delete[]` on the buffer a `unique_ptr` gives up, if it held one. -/
def ArrayHeap.release (h : ArrayHeap) : Option (HeapArray T) → ArrayHeap
  | none => h
  | some b => ⟨h.next, h.live.filter (fun x => x != b.addr)⟩

/-- A successful `new (std::nothrow) T[size]`: the elements are default-initialised, `d`
stands for the value of such an element. -/
def ArrayHeap.alloc (h : ArrayHeap) (d : T) (size : Nat) : HeapArray T × ArrayHeap :=
  (⟨h.next, List.replicate size d⟩, ⟨h.next + 1, h.next :: h.live⟩)

/-- The default constructor `Array()`: `N` default-initialised inline elements, `inheap`
null. -/
def Array.construct (d : T) (N : Nat) : Array T :=
  ⟨List.replicate N d, none⟩

/-- Result of `Array::alloc`: the returned pointer, the array and the allocator afterwards. -/
structure ArrayAlloc (T : Type) where
  ptr : Ptr
  array : Array T
  heap : ArrayHeap
  deriving DecidableEq

/-- `Array::alloc(_size)`. `inheap.reset(p)` stores `p` and deletes the buffer held before;
in the `else` branch `new` is evaluated before `reset` runs. `ok` is whether
`new (std::nothrow)` succeeds, should it be reached. -/
def Array.alloc (d : T) (ok : Bool) (a : Array T) (h : ArrayHeap) (size : Nat) :
    ArrayAlloc T :=
  if size ≤ a.N then
    ⟨Values.begin a.inplace, ⟨a.inplace, none⟩, h.release a.inheap⟩
  else if ok then
    ⟨Ptr.inheap (h.alloc d size).1.addr, ⟨a.inplace, some (h.alloc d size).1⟩,
      (h.alloc d size).2.release a.inheap⟩
  else
    ⟨Ptr.null, ⟨a.inplace, none⟩, h.release a.inheap⟩

/-- `Array::data()`. -/
def Array.data (a : Array T) : Ptr :=
  match a.inheap with
  | none => Values.begin a.inplace
  | some b => Ptr.inheap b.addr

/-- The writes of `std::copy(_ptr, _ptr + _count, dest)` into the array's storage, where
`src` are the `_count` elements at `_ptr`. Writing one or more elements through a null
pointer, past the end of the storage, or into a buffer the array does not hold is a fault. -/
def Array.write (a : Array T) (src : List T) : Ptr → Outcome (Array T)
  | Ptr.null => if src.length = 0 then Outcome.done a else Outcome.fatal a
  | Ptr.inplace =>
    if src.length ≤ a.N then Outcome.done ⟨src ++ a.inplace.drop src.length, a.inheap⟩
    else Outcome.fatal a
  | Ptr.inheap addr =>
    match a.inheap with
    | none => Outcome.fatal a
    | some b =>
      if b.addr = addr ∧ src.length ≤ b.elems.length then
        Outcome.done ⟨a.inplace, some ⟨b.addr, src ++ b.elems.drop src.length⟩⟩
      else Outcome.fatal a

/-- Reading `k` elements through a pointer into the array's storage; `none` when the
pointer does not give access to `k` elements. -/
def Array.read (a : Array T) (k : Nat) : Ptr → Option (List T)
  | Ptr.null => if k = 0 then some [] else none
  | Ptr.inplace => if k ≤ a.N then some (a.inplace.take k) else none
  | Ptr.inheap addr =>
    match a.inheap with
    | none => none
    | some b => if b.addr = addr ∧ k ≤ b.elems.length then some (b.elems.take k) else none

/-- `Array::set(_ptr, _count)`: `std::copy(_ptr, _ptr + _count, alloc(_count))`. The pair
`(_ptr, _count)` is the list `src` of the `_count` elements at `_ptr`. -/
def Array.set (d : T) (ok : Bool) (a : Array T) (h : ArrayHeap) (src : List T) :
    Outcome (Array T × ArrayHeap) :=
  match Array.write (Array.alloc d ok a h src.length).array src
      (Array.alloc d ok a h src.length).ptr with
  | Outcome.done a1 => Outcome.done (a1, (Array.alloc d ok a h src.length).heap)
  | Outcome.fatal a1 => Outcome.fatal (a1, (Array.alloc d ok a h src.length).heap)

/-- The state after a move: the destination `*this`, the source `_other`, the allocator. -/
structure Moved (T : Type) where
  dest : Array T
  source : Array T
  heap : ArrayHeap
  deriving DecidableEq

/-- The state an outcome carries. -/
def Outcome.state {σ : Type} : Outcome σ → σ
  | Outcome.done s => s
  | Outcome.fatal s => s

/-- The tail shared by the move constructor and the move assignment, entered once `inheap`
holds what `_other.inheap` held and `_other.inheap` is null:
`if (!inheap) set(_other.inplace.begin(), M)`, with `M = other.inplace.length`. -/
def Array.afterMove (d : T) (ok : Bool) (this other : Array T) (h : ArrayHeap) :
    Outcome (Moved T) :=
  match this.inheap with
  | some _ => Outcome.done ⟨this, other, h⟩
  | none =>
    match Array.set d ok this h other.inplace with
    | Outcome.done r => Outcome.done ⟨r.1, other, r.2⟩
    | Outcome.fatal r => Outcome.fatal ⟨r.1, other, r.2⟩

/-- The move constructor `Array(Array<T, M>&& _other)` of an `Array<T, N>`: the inline
elements are default-initialised, `inheap` is move-constructed from `_other.inheap`. -/
def Array.moveConstruct (d : T) (ok : Bool) (N : Nat) (other : Array T) (h : ArrayHeap) :
    Outcome (Moved T) :=
  Array.afterMove d ok ⟨List.replicate N d, other.inheap⟩ ⟨other.inplace, none⟩ h

/-- The move assignment `operator=(Array<T, M>&& _other)`: the `unique_ptr` move assignment
is `reset(_other.inheap.release())`, which deletes the buffer `*this` held. -/
def Array.moveAssign (d : T) (ok : Bool) (this other : Array T) (h : ArrayHeap) :
    Outcome (Moved T) :=
  Array.afterMove d ok ⟨this.inplace, other.inheap⟩ ⟨other.inplace, none⟩
    (h.release this.inheap)

/-- The constructors `Array(const T(&_vn)[M])` and `Array(const T* _ptr, size_t _count)`:
`set` on a default-constructed array. -/
def Array.constructFrom (d : T) (ok : Bool) (N : Nat) (h : ArrayHeap) (src : List T) :
    Outcome (Array T × ArrayHeap) :=
  Array.set d ok (Array.construct d N) h src

/-! ## Destruction of the factory -/

/-- The destructors of the slots, run one after the other on the given list; the first failed
assertion stops the program. -/
def ObjectFactory.destroyEach (debug : Bool) : List (ObjectInPlace T) → Outcome Unit
  | [] => Outcome.done ()
  | s :: rest =>
    match ObjectInPlace.destroy debug s with
    | Outcome.done _ => ObjectFactory.destroyEach debug rest
    | Outcome.fatal _ => Outcome.fatal ()

/-- The implicit destructor `~ObjectFactory`: the elements of `m_values.v` are destroyed in
reverse order, each by `~ObjectInPlace`. For `N = 0` there is no element. The heap instances
are not members of the factory and are not visited; the heap is returned as it was. -/
def ObjectFactory.destroy (debug : Bool) (f : ObjectFactory T) : Outcome (ObjHeap T) :=
  match ObjectFactory.destroyEach debug f.m_values.reverse with
  | Outcome.done _ => Outcome.done f.heap
  | Outcome.fatal _ => Outcome.fatal f.heap

/-! ## Idle payloads and the order of the steps of a release -/

/-- The idle state of a payload, as the data model describes it: the default-constructed
value `T()` (which is also what the assignment of `T()` leaves), or, for a payload type that
declares the hooks, a value its own `clear_from_factory` hook returns. -/
def Payload.Idle (P : Payload T A) (x : T) : Prop :=
  x = P.construct0 ∨ ∃ hk y, P.hooks = some hk ∧ x = hk.clear_from_factory y

/-- Free slots are idle: a slot whose flag is free, or on which a release has reset the
payload and is about to clear the flag, holds an idle payload. -/
def Sys.IdleInv (P : Payload T A) (s : Sys T A) : Prop :=
  ∀ i slot, s.factory.m_values[i]? = some slot →
    (slot.flag = false ∨ Op.unflag i ∈ s.calls) → P.Idle slot.obj

/-! ## Buffer states reachable by the operations of `Array` -/

/-- An operation on an existing `Array<T, N>`: `alloc(size)`; `set(ptr, count)`, which is
also `operator=(const T(&)[M])`; the move assignment from another buffer. `ok` is the result
of `new (std::nothrow)` should the operation reach it. -/
inductive ArrayOp (T : Type) where
  | alloc (ok : Bool) (size : Nat)
  | set (ok : Bool) (src : List T)
  | moveFrom (ok : Bool) (other : Array T)

/-- One operation on the array and the allocator. -/
def Array.applyOp (d : T) (st : Array T × ArrayHeap) : ArrayOp T → Outcome (Array T × ArrayHeap)
  | ArrayOp.alloc ok size =>
    Outcome.done ((Array.alloc d ok st.1 st.2 size).array, (Array.alloc d ok st.1 st.2 size).heap)
  | ArrayOp.set ok src => Array.set d ok st.1 st.2 src
  | ArrayOp.moveFrom ok other =>
    match Array.moveAssign d ok st.1 other st.2 with
    | Outcome.done r => Outcome.done (r.dest, r.heap)
    | Outcome.fatal r => Outcome.fatal (r.dest, r.heap)

/-- A sequence of operations; nothing runs after a fault. -/
def Array.runOps (d : T) :
    Outcome (Array T × ArrayHeap) → List (ArrayOp T) → Outcome (Array T × ArrayHeap)
  | Outcome.fatal st, _ => Outcome.fatal st
  | Outcome.done st, [] => Outcome.done st
  | Outcome.done st, op :: rest => Array.runOps d (Array.applyOp d st op) rest

/-- The storage invariant of the data model: a heap buffer is held (and then is what
`data()` returns) only if it has more elements than the inline capacity `N`. -/
def Array.HeapOnlyAboveN (a : Array T) : Prop :=
  ∀ b, a.inheap = some b → a.N < b.elems.length

/-- Whether an operation is not a move from a source whose heap buffer has at most `N`
elements. -/
def ArrayOp.fits (N : Nat) : ArrayOp T → Bool
  | ArrayOp.alloc _ _ => true
  | ArrayOp.set _ _ => true
  | ArrayOp.moveFrom _ other =>
    match other.inheap with
    | none => true
    | some b => decide (N < b.elems.length)

/-! ## Concrete payload types and factories used in the witnesses -/

/-- A payload type without hooks: `T = Nat`, `T(a) = a`, `T() = 0`. -/
def natPayload : Payload Nat Nat := ⟨fun a => a, 0, none⟩

/-- A factory of size 3 whose slot 0 is claimed (payload 5) and whose slots 1 and 2 are
free; slot 1 still holds the value 9 of an earlier use. -/
def factory3 : ObjectFactory Nat := ⟨[⟨true, 5⟩, ⟨false, 9⟩, ⟨false, 0⟩], ⟨0, []⟩⟩

/-- A factory of size 2 with both slots claimed. -/
def factoryFull : ObjectFactory Nat := ⟨[⟨true, 5⟩, ⟨true, 6⟩], ⟨0, []⟩⟩

/-- An interleaving on a factory of size 1: two `alloc` calls race for slot 0, the loser goes
to the heap, the winner's instance is released while a third `alloc` scans, and a fourth
`alloc` claims the slot again. -/
def raceActs : List (Action Nat) :=
  [Action.callAlloc 7, Action.callAlloc 8, Action.step 0 true, Action.step 1 true,
    Action.step 1 true, Action.step 0 true, Action.callRelease 1, Action.callAlloc 9,
    Action.step 3 true, Action.step 2 true, Action.step 2 true, Action.step 2 true,
    Action.callAlloc 10, Action.step 4 true, Action.step 4 true]

/-- The state `raceActs` leads to. -/
def raceFinal : Sys Nat Nat :=
  ⟨⟨[⟨true, 10⟩], ⟨1, [(0, 8)]⟩⟩,
    [Op.finished, Op.finished, Op.finished, Op.scan 9 1, Op.finished],
    [Handle.inheap 0, Handle.inplace 0], false⟩

/-- An `Array<int, 4>` as its default constructor leaves it (inline elements shown as 0). -/
def arr4 : Array Int := Array.construct 0 4

/-- An allocator that has not handed out anything yet. -/
def heap0 : ArrayHeap := ⟨0, []⟩

/-- The array `arr4` after `set` of the three elements 1, 2, 3. -/
def arr4a : Array Int := ⟨[1, 2, 3, 0], none⟩

/-- The array `arr4a` after `set` of the five elements 1, 2, 3, 4, 5. -/
def arr4b : Array Int := ⟨[1, 2, 3, 0], some ⟨0, [1, 2, 3, 4, 5]⟩⟩

/-- An `Array<int, 2>` holding only inline data. -/
def arr2 : Array Int := ⟨[7, 8], none⟩

/-- An `Array<int, 2>` holding a heap buffer of 3 elements. -/
def arr2heap : Array Int := ⟨[7, 8], some ⟨0, [4, 5, 6]⟩⟩

/-- A payload type with hooks: a value and a count of the times the object was initialised by
the factory. `init_from_factory(a)` stores `a` and counts, `clear_from_factory()` zeroes the
value and keeps the count; the constructors start the count at 0. -/
def countingPayload : Payload (Nat × Nat) Nat :=
  ⟨fun a => (a, 0), (0, 0), some ⟨fun a x => (a, x.2 + 1), fun x => (0, x.2)⟩⟩

/-- A factory of size 2 of counting payloads: slot 0 is claimed, holds 5 and was initialised
3 times; slot 1 is free. -/
def countingFactory : ObjectFactory (Nat × Nat) := ⟨[⟨true, (5, 3)⟩, ⟨false, (0, 1)⟩], ⟨0, []⟩⟩

/-- A factory of size 2 with both slots claimed and one heap instance outstanding. -/
def factoryOverflown : ObjectFactory Nat := ⟨[⟨true, 5⟩, ⟨true, 6⟩], ⟨1, [(0, 7)]⟩⟩

/-- A factory of size 2 with both slots free and one heap instance outstanding. -/
def factoryIdle : ObjectFactory Nat := ⟨[⟨false, 0⟩, ⟨false, 0⟩], ⟨1, [(0, 7)]⟩⟩

/-- On a factory of size 1: an `alloc` that completes, then a release of its instance that has
passed the assertion and is about to reset the payload. -/
def releaseActs : List (Action Nat) :=
  [Action.callAlloc 7, Action.step 0 true, Action.step 0 true, Action.callRelease 0,
    Action.step 1 true]

/-- The state `releaseActs` leads to. -/
def releaseMid : Sys Nat Nat :=
  ⟨⟨[⟨true, 7⟩], ⟨0, []⟩⟩, [Op.finished, Op.reset 0], [], false⟩

/-- On a factory of size 1 of counting payloads: an `alloc(9)` that completes and a release
of its instance that completes. -/
def countingActs : List (Action Nat) :=
  [Action.callAlloc 9, Action.step 0 true, Action.step 0 true, Action.callRelease 0,
    Action.step 1 true, Action.step 1 true, Action.step 1 true]

/-- The state `countingActs` leads to: the slot is free and its payload is what the hook
`clear_from_factory` left, value 0 and one initialisation counted. -/
def countingDone : Sys (Nat × Nat) Nat :=
  ⟨⟨[⟨false, (0, 1)⟩], ⟨0, []⟩⟩, [Op.finished, Op.finished], [], false⟩

/-! ## Lemmas on the scan -/

theorem exists_first_free {vs : List (ObjectInPlace T)}
    (h : ∃ s ∈ vs, s.flag = false) :
    ∃ pre s post, vs = pre ++ s :: post ∧ (∀ t ∈ pre, t.flag = true) ∧ s.flag = false := by
  induction vs with
  | nil => simp at h
  | cons x xs ih =>
    by_cases hx : x.flag = false
    · exact ⟨[], x, xs, rfl, by simp, hx⟩
    · have hx1 : x.flag = true := by simpa using hx
      have h2 : ∃ s ∈ xs, s.flag = false := by
        obtain ⟨s, hs, hf⟩ := h
        rcases List.mem_cons.mp hs with rfl | hs
        · exact absurd hf hx
        · exact ⟨s, hs, hf⟩
      obtain ⟨pre, s, post, rfl, hpre, hs⟩ := ih h2
      refine ⟨x :: pre, s, post, rfl, ?_, hs⟩
      intro t ht
      rcases List.mem_cons.mp ht with rfl | ht
      · exact hx1
      · exact hpre t ht

theorem getElem?_append_cons_length {α : Type} (pre : List α) (x : α) (post : List α) :
    (pre ++ x :: post)[pre.length]? = some x := by
  rw [List.getElem?_append_right (le_refl _)]
  simp

theorem test_and_set_of_claimed {s : ObjectInPlace T} (h : s.flag = true) :
    ObjectInPlace.test_and_set s = (true, s) := by
  cases s
  simp_all [ObjectInPlace.test_and_set]

theorem scan_cons_claimed (P : Payload T A) (args : A) (x : ObjectInPlace T)
    (xs : List (ObjectInPlace T)) (base : Nat) (hx : x.flag = true) :
    ObjectFactory.scan P args base (x :: xs) =
      ⟨(ObjectFactory.scan P args (base + 1) xs).hit,
        x :: (ObjectFactory.scan P args (base + 1) xs).values,
        base :: (ObjectFactory.scan P args (base + 1) xs).visited⟩ := by
  rw [ObjectFactory.scan, test_and_set_of_claimed hx]
  simp

theorem scan_first_free (P : Payload T A) (args : A) (pre : List (ObjectInPlace T))
    (s : ObjectInPlace T) (post : List (ObjectInPlace T)) (base : Nat)
    (hpre : ∀ t ∈ pre, t.flag = true) (hs : s.flag = false) :
    ObjectFactory.scan P args base (pre ++ s :: post) =
      ⟨some (base + pre.length),
        pre ++ ⟨true, Object.init_from_factory P args s.obj⟩ :: post,
        List.range' base (pre.length + 1)⟩ := by
  induction pre generalizing base with
  | nil =>
    simp [ObjectFactory.scan, ObjectInPlace.test_and_set, hs,
      ObjectInPlace.init_from_factory]
  | cons x xs ih =>
    have hx : x.flag = true := hpre x (List.mem_cons_self _ _)
    have hxs : ∀ t ∈ xs, t.flag = true := fun t ht => hpre t (List.mem_cons_of_mem _ ht)
    rw [List.cons_append, scan_cons_claimed P args x _ base hx, ih (base + 1) hxs]
    simp [List.range'_succ, Nat.add_assoc, Nat.add_comm 1]

theorem scan_all_claimed (P : Payload T A) (args : A) (vs : List (ObjectInPlace T))
    (base : Nat) (h : ∀ t ∈ vs, t.flag = true) :
    ObjectFactory.scan P args base vs = ⟨none, vs, List.range' base vs.length⟩ := by
  induction vs generalizing base with
  | nil => simp [ObjectFactory.scan]
  | cons x xs ih =>
    have hx : x.flag = true := h x (List.mem_cons_self _ _)
    have hxs : ∀ t ∈ xs, t.flag = true := fun t ht => h t (List.mem_cons_of_mem _ ht)
    rw [scan_cons_claimed P args x _ base hx, ih (base + 1) hxs]
    simp [List.range'_succ]

theorem alloc_of_first_free (P : Payload T A) (heapOk : Bool) (f : ObjectFactory T) (args : A)
    (pre : List (ObjectInPlace T)) (s : ObjectInPlace T) (post : List (ObjectInPlace T))
    (hf : f.m_values = pre ++ s :: post)
    (hpre : ∀ t ∈ pre, t.flag = true) (hs : s.flag = false) :
    ObjectFactory.alloc P heapOk f args =
      ⟨Handle.inplace pre.length,
        ⟨pre ++ ⟨true, Object.init_from_factory P args s.obj⟩ :: post, f.heap⟩,
        List.range (pre.length + 1)⟩ := by
  unfold ObjectFactory.alloc
  rw [hf, scan_first_free P args pre s post 0 hpre hs]
  simp [List.range_eq_range']

theorem alloc_of_all_claimed (P : Payload T A) (heapOk : Bool) (f : ObjectFactory T) (args : A)
    (h : ∀ t ∈ f.m_values, t.flag = true) :
    ObjectFactory.alloc P heapOk f args =
      if heapOk then
        ⟨Handle.inheap f.heap.next,
          ⟨f.m_values, ⟨f.heap.next + 1, (f.heap.next, P.construct args) :: f.heap.objs⟩⟩,
          List.range f.m_values.length⟩
      else
        ⟨Handle.null, f, List.range f.m_values.length⟩ := by
  unfold ObjectFactory.alloc
  rw [scan_all_claimed P args f.m_values 0 h]
  cases heapOk <;> simp [List.range_eq_range', ObjHeap.alloc]

theorem allocMany_from_prefix (P : Payload T A) (m : Nat) :
    ∀ (pre : List (ObjectInPlace T)) (heap : ObjHeap T) (args : List A),
      (∀ t ∈ pre, t.flag = true) → args.length = m + 1 →
      (ObjectFactory.allocMany P true
          ⟨pre ++ List.replicate m (ObjectInPlace.construct P), heap⟩ args).1 =
        (List.range' pre.length m).map Handle.inplace ++ [Handle.inheap heap.next] ∧
      (∀ t ∈ (ObjectFactory.allocMany P true
          ⟨pre ++ List.replicate m (ObjectInPlace.construct P), heap⟩ args).2.m_values,
        t.flag = true) ∧
      (ObjectFactory.allocMany P true
          ⟨pre ++ List.replicate m (ObjectInPlace.construct P), heap⟩ args).2.m_values.length =
        pre.length + m := by
  induction m with
  | zero =>
    intro pre heap args hpre hlen
    match args, hlen with
    | [a], _ =>
      have hall : ∀ t ∈ (⟨pre ++ List.replicate 0 (ObjectInPlace.construct P), heap⟩ :
          ObjectFactory T).m_values, t.flag = true := by
        simpa using hpre
      simp only [ObjectFactory.allocMany, alloc_of_all_claimed P true _ a hall]
      simpa using hpre
  | succ m ih =>
    intro pre heap args hpre hlen
    match args, hlen with
    | a :: rest, hlen =>
      have hrest : rest.length = m + 1 := by simpa using hlen
      have hfresh : (ObjectInPlace.construct P : ObjectInPlace T).flag = false := rfl
      have hf : (⟨pre ++ List.replicate (m + 1) (ObjectInPlace.construct P), heap⟩ :
          ObjectFactory T).m_values =
          pre ++ ObjectInPlace.construct P :: List.replicate m (ObjectInPlace.construct P) := by
        simp [List.replicate_succ]
      have hpre2 : ∀ t ∈ pre ++ [(⟨true, Object.init_from_factory P a
          (ObjectInPlace.construct P).obj⟩ : ObjectInPlace T)], t.flag = true := by
        intro t ht
        rcases List.mem_append.mp ht with ht | ht
        · exact hpre t ht
        · simp at ht; rw [ht]
      have key := ih (pre ++ [⟨true, Object.init_from_factory P a
          (ObjectInPlace.construct P).obj⟩]) heap rest hpre2 hrest
      simp only [ObjectFactory.allocMany,
        alloc_of_first_free P true _ a pre _ _ hf hpre hfresh]
      rw [List.append_assoc, List.singleton_append] at key
      obtain ⟨k1, k2, k3⟩ := key
      refine ⟨?_, k2, ?_⟩
      · rw [k1]; simp [List.range'_succ]
      · rw [k3]; simp; omega

theorem release_slot_of_claimed (P : Payload T A) (s : ObjectInPlace T) (h : s.flag = true) :
    ObjectInPlace.release_to_factory P true s =
      Outcome.done ⟨false, Object.clear_from_factory P s.obj⟩ := by
  simp [ObjectInPlace.release_to_factory, ObjectInPlace.test_and_set, h,
    ObjectInPlace.clear, ObjectInPlace.clear_from_factory]

theorem release_slot_of_free (P : Payload T A) (s : ObjectInPlace T) (h : s.flag = false) :
    ObjectInPlace.release_to_factory P true s = Outcome.fatal ⟨true, s.obj⟩ := by
  simp [ObjectInPlace.release_to_factory, ObjectInPlace.test_and_set, h]

theorem release_inplace_of_claimed (P : Payload T A) (f : ObjectFactory T) (i : Nat)
    (s : ObjectInPlace T) (hs : f.m_values[i]? = some s) (h : s.flag = true) :
    ObjectFactory.release_to_factory P true f (Handle.inplace i) =
      Outcome.done ⟨f.m_values.set i ⟨false, Object.clear_from_factory P s.obj⟩, f.heap⟩ := by
  simp [ObjectFactory.release_to_factory, hs, release_slot_of_claimed P s h]

theorem release_inplace_of_free (P : Payload T A) (f : ObjectFactory T) (i : Nat)
    (s : ObjectInPlace T) (hs : f.m_values[i]? = some s) (h : s.flag = false) :
    ObjectFactory.release_to_factory P true f (Handle.inplace i) =
      Outcome.fatal ⟨f.m_values.set i ⟨true, s.obj⟩, f.heap⟩ := by
  simp [ObjectFactory.release_to_factory, hs, release_slot_of_free P s h]

/-! ## Lemmas on the interleaved execution -/

theorem countP_set_add {α : Type} (p : α → Bool) :
    ∀ (l : List α) (t : Nat) (x y : α), l[t]? = some y →
      (l.set t x).countP p + (if p y then 1 else 0) = l.countP p + (if p x then 1 else 0)
  | [], _, _, _, h => by simp at h
  | a :: l, 0, x, y, h => by
    simp at h
    subst h
    simp only [List.set_cons_zero, List.countP_cons]
    omega
  | a :: l, t + 1, x, y, h => by
    have ih := countP_set_add p l t x y (by simpa using h)
    simp only [List.set_cons_succ, List.countP_cons]
    omega

theorem count_eraseIdx_add (a : Handle) :
    ∀ (l : List Handle) (k : Nat) (y : Handle), l[k]? = some y →
      (l.eraseIdx k).count a + (if y = a then 1 else 0) = l.count a
  | [], _, _, h => by simp at h
  | b :: l, 0, y, h => by
    simp at h
    subst h
    simp [List.count_cons]
  | b :: l, k + 1, y, h => by
    have ih := count_eraseIdx_add a l k y (by simpa using h)
    simp only [List.eraseIdx_cons_succ, List.count_cons]
    omega

theorem flagAt_set (f : ObjectFactory T) (h1 : ObjHeap T) (i : Nat)
    (slot x : ObjectInPlace T) (hi : f.m_values[i]? = some slot) (j : Nat) :
    ObjectFactory.flagAt ⟨f.m_values.set i x, h1⟩ j =
      if i = j then x.flag else f.flagAt j := by
  have hlt : i < f.m_values.length := (List.getElem?_eq_some.mp hi).1
  unfold ObjectFactory.flagAt
  simp only [List.getElem?_set]
  by_cases hij : i = j
  · simp [hij ▸ hlt, hij]
  · simp [hij]

theorem flagAt_heap (f : ObjectFactory T) (h1 : ObjHeap T) (j : Nat) :
    ObjectFactory.flagAt ⟨f.m_values, h1⟩ j = f.flagAt j := rfl

theorem flagAt_of_getElem? (f : ObjectFactory T) (i : Nat) (slot : ObjectInPlace T)
    (hi : f.m_values[i]? = some slot) : f.flagAt i = slot.flag := by
  simp [ObjectFactory.flagAt, hi]

theorem holds_scan (args : A) (it j : Nat) : (Op.scan args it).holds j = false := rfl

theorem holds_init (args : A) (it j : Nat) : (Op.init args it).holds j = (it == j) := rfl

theorem holds_check (i j : Nat) : (Op.check i : Op A).holds j = (i == j) := rfl

theorem holds_reset (i j : Nat) : (Op.reset i : Op A).holds j = (i == j) := rfl

theorem holds_unflag (i j : Nat) : (Op.unflag i : Op A).holds j = (i == j) := rfl

theorem holds_finished (j : Nat) : (Op.finished : Op A).holds j = false := rfl

theorem count_inplace_singleton (it j : Nat) :
    List.count (Handle.inplace j) [Handle.inplace it] = if it = j then 1 else 0 := by
  by_cases h : it = j
  · subst h; simp
  · have hne : (Handle.inplace it == Handle.inplace j) = false := by
      simp [h]
    simp [List.count_cons, h, hne]

theorem count_inplace_singleton_inheap (a j : Nat) :
    List.count (Handle.inplace j) [Handle.inheap a] = 0 := by
  simp [List.count_cons]

theorem stepOp_preserves (P : Payload T A) (s s1 : Sys T A) (t : Nat) (heapOk : Bool)
    (op : Op A) (hinv : s.Inv) (ht : s.calls[t]? = some op)
    (hstep : Sys.stepOp P s t heapOk op = some s1) : s1.Inv := by
  intro j
  have hj := hinv j
  have hcnt := fun op1 => countP_set_add (fun o => Op.holds o j) s.calls t op1 op ht
  cases op with
  | scan args it =>
    simp only [Sys.stepOp] at hstep
    split at hstep
    · rename_i slot hslot
      have hfl := flagAt_of_getElem? s.factory it slot hslot
      split at hstep
      · rename_i hwas
        have hsf : slot.flag = false := by simpa [ObjectInPlace.test_and_set] using hwas
        cases hstep
        have hc := hcnt (Op.init args it)
        simp only [Sys.holders, holds_scan, holds_init] at hj hc ⊢
        rw [flagAt_set s.factory _ it slot _ hslot]
        by_cases hij : it = j
        · subst hij
          simp only [hfl, hsf, ObjectInPlace.test_and_set, eq_self_iff_true, if_true,
            Bool.false_eq_true, if_false, beq_self_eq_true] at hj hc ⊢
          omega
        · simp only [beq_iff_eq, hij, if_false, Bool.false_eq_true] at hc ⊢
          omega
      · rename_i hwas
        have hsf : slot.flag = true := by simpa [ObjectInPlace.test_and_set] using hwas
        cases hstep
        have hc := hcnt (Op.scan args (it + 1))
        simp only [Sys.holders, holds_scan] at hj hc ⊢
        rw [flagAt_set s.factory _ it slot _ hslot]
        by_cases hij : it = j
        · subst hij
          simp only [hfl, hsf, ObjectInPlace.test_and_set, eq_self_iff_true, if_true,
            Bool.false_eq_true, if_false] at hj hc ⊢
          omega
        · simp only [hij, if_false, Bool.false_eq_true] at hc ⊢
          omega
    · split at hstep
      · cases hstep
        have hc := hcnt Op.finished
        simp only [Sys.holders, holds_scan, holds_finished, List.count_append,
          flagAt_heap, count_inplace_singleton_inheap, Bool.false_eq_true, if_false] at hj hc ⊢
        omega
      · cases hstep
        have hc := hcnt Op.finished
        simp only [Sys.holders, holds_scan, holds_finished, Bool.false_eq_true,
          if_false] at hj hc ⊢
        omega
  | init args it =>
    simp only [Sys.stepOp] at hstep
    split at hstep
    · cases hstep
    · rename_i slot hslot
      have hfl := flagAt_of_getElem? s.factory it slot hslot
      cases hstep
      have hc := hcnt Op.finished
      simp only [Sys.holders, holds_init, holds_finished, List.count_append,
        count_inplace_singleton] at hj hc ⊢
      rw [flagAt_set s.factory _ it slot _ hslot]
      by_cases hij : it = j
      · subst hij
        simp only [hfl, ObjectInPlace.init_from_factory, eq_self_iff_true, if_true,
          Bool.false_eq_true, if_false, beq_self_eq_true] at hj hc ⊢
        omega
      · simp only [beq_iff_eq, hij, if_false, Bool.false_eq_true] at hc ⊢
        omega
  | check i =>
    simp only [Sys.stepOp] at hstep
    split at hstep
    · cases hstep
    · rename_i slot hslot
      have hfl := flagAt_of_getElem? s.factory i slot hslot
      split at hstep
      · cases hstep
        have hc := hcnt (Op.reset i)
        simp only [Sys.holders, holds_check, holds_reset] at hj hc ⊢
        rw [flagAt_set s.factory _ i slot _ hslot]
        by_cases hij : i = j
        · subst hij
          simp only [hfl, ObjectInPlace.test_and_set, eq_self_iff_true, if_true,
            Bool.false_eq_true, if_false, beq_self_eq_true] at hj hc ⊢
          split at hj <;> omega
        · simp only [beq_iff_eq, hij, if_false, Bool.false_eq_true] at hc ⊢
          omega
      · cases hstep
        have hc := hcnt Op.finished
        simp only [Sys.holders, holds_check, holds_finished] at hj hc ⊢
        rw [flagAt_set s.factory _ i slot _ hslot]
        by_cases hij : i = j
        · subst hij
          simp only [hfl, ObjectInPlace.test_and_set, eq_self_iff_true, if_true,
            Bool.false_eq_true, if_false, beq_self_eq_true] at hj hc ⊢
          split at hj <;> omega
        · simp only [beq_iff_eq, hij, if_false, Bool.false_eq_true] at hc ⊢
          omega
  | reset i =>
    simp only [Sys.stepOp] at hstep
    split at hstep
    · cases hstep
    · rename_i slot hslot
      have hfl := flagAt_of_getElem? s.factory i slot hslot
      cases hstep
      have hc := hcnt (Op.unflag i)
      simp only [Sys.holders, holds_reset, holds_unflag] at hj hc ⊢
      rw [flagAt_set s.factory _ i slot _ hslot]
      by_cases hij : i = j
      · subst hij
        simp only [hfl, ObjectInPlace.clear_from_factory, eq_self_iff_true, if_true,
          Bool.false_eq_true, if_false, beq_self_eq_true] at hj hc ⊢
        omega
      · simp only [beq_iff_eq, hij, if_false, Bool.false_eq_true] at hc ⊢
        omega
  | unflag i =>
    simp only [Sys.stepOp] at hstep
    split at hstep
    · cases hstep
    · rename_i slot hslot
      have hfl := flagAt_of_getElem? s.factory i slot hslot
      cases hstep
      have hc := hcnt Op.finished
      simp only [Sys.holders, holds_unflag, holds_finished] at hj hc ⊢
      rw [flagAt_set s.factory _ i slot _ hslot]
      by_cases hij : i = j
      · subst hij
        simp only [hfl, ObjectInPlace.clear, eq_self_iff_true, if_true,
          Bool.false_eq_true, if_false, beq_self_eq_true] at hj hc ⊢
        split at hj <;> omega
      · simp only [beq_iff_eq, hij, if_false, Bool.false_eq_true] at hc ⊢
        omega
  | finished => simp [Sys.stepOp] at hstep

theorem step_preserves (P : Payload T A) (debug : Bool) (s s1 : Sys T A) (a : Action A)
    (hinv : s.Inv) (hstep : Sys.step P debug s a = some s1) : s1.Inv := by
  cases a with
  | callAlloc args =>
    simp only [Sys.step] at hstep
    split at hstep
    · cases hstep
    · cases hstep
      intro j
      have hj := hinv j
      simp only [Sys.holders, List.countP_append, List.countP_cons, List.countP_nil,
        holds_scan, Bool.false_eq_true, if_false] at hj ⊢
      omega
  | callRelease k =>
    simp only [Sys.step] at hstep
    split at hstep
    · cases hstep
    · split at hstep
      · cases hstep
      · cases hstep
      · rename_i i hk
        cases hstep
        intro j
        have hj := hinv j
        have he := count_eraseIdx_add (Handle.inplace j) s.live k _ hk
        have hholds : (if debug = true then (Op.check i : Op A) else Op.reset i).holds j
            = (i == j) := by
          cases debug <;> rfl
        simp only [Sys.holders, List.countP_append, List.countP_cons, List.countP_nil,
          hholds, Handle.inplace.injEq] at hj he ⊢
        by_cases hij : i = j
        · simp only [hij, beq_self_eq_true, if_true] at he ⊢
          omega
        · simp only [beq_iff_eq, hij, if_false] at he ⊢
          omega
      · rename_i a hk
        cases hstep
        intro j
        have hj := hinv j
        have he := count_eraseIdx_add (Handle.inplace j) s.live k _ hk
        simp only [Sys.holders, flagAt_heap, reduceCtorEq, if_false] at hj he ⊢
        omega
  | step t heapOk =>
    simp only [Sys.step] at hstep
    split at hstep
    · cases hstep
    · split at hstep
      · cases hstep
      · rename_i op ht
        exact stepOp_preserves P s s1 t heapOk op hinv ht hstep

theorem holds_le_countP (calls : List (Op A)) (t : Nat) (op : Op A) (i : Nat)
    (ht : calls[t]? = some op) (hop : op.holds i = true) :
    1 ≤ calls.countP (fun o => Op.holds o i) := by
  obtain ⟨hlt, hget⟩ := List.getElem?_eq_some.mp ht
  have hmem : op ∈ calls := hget ▸ List.getElem_mem hlt
  exact List.countP_pos_iff.mpr ⟨op, hmem, hop⟩

theorem step_not_aborted (P : Payload T A) (debug : Bool) (s s1 : Sys T A) (a : Action A)
    (hinv : s.Inv) (hstep : Sys.step P debug s a = some s1) : s1.aborted = false := by
  cases a with
  | callAlloc args =>
    simp only [Sys.step] at hstep
    split at hstep
    · cases hstep
    · rename_i hab
      cases hstep
      simpa using hab
  | callRelease k =>
    simp only [Sys.step] at hstep
    split at hstep
    · cases hstep
    · rename_i hab
      split at hstep
      · cases hstep
      · cases hstep
      · cases hstep
        simpa using hab
      · cases hstep
        simpa using hab
  | step t heapOk =>
    simp only [Sys.step] at hstep
    split at hstep
    · cases hstep
    · rename_i hab
      have hab1 : s.aborted = false := by simpa using hab
      split at hstep
      · cases hstep
      · rename_i op ht
        cases op with
        | scan args it =>
          simp only [Sys.stepOp] at hstep
          split at hstep
          · split at hstep <;> (cases hstep; exact hab1)
          · split at hstep <;> (cases hstep; exact hab1)
        | init args it =>
          simp only [Sys.stepOp] at hstep
          split at hstep
          · cases hstep
          · cases hstep; exact hab1
        | check i =>
          simp only [Sys.stepOp] at hstep
          split at hstep
          · cases hstep
          · rename_i slot hslot
            split at hstep
            · cases hstep; exact hab1
            · rename_i hwas
              exfalso
              have hfl := flagAt_of_getElem? s.factory i slot hslot
              have hsf : slot.flag = false := by
                simpa [ObjectInPlace.test_and_set] using hwas
              have hi := hinv i
              have hpos := holds_le_countP s.calls t (Op.check i) i ht
                (by simp [holds_check])
              simp only [Sys.holders, hfl, hsf, Bool.false_eq_true, if_false] at hi
              omega
        | reset i =>
          simp only [Sys.stepOp] at hstep
          split at hstep
          · cases hstep
          · cases hstep; exact hab1
        | unflag i =>
          simp only [Sys.stepOp] at hstep
          split at hstep
          · cases hstep
          · cases hstep; exact hab1
        | finished => simp [Sys.stepOp] at hstep

theorem init_inv (P : Payload T A) (N : Nat) (heap : ObjHeap T) :
    (Sys.init P N heap : Sys T A).Inv := by
  intro i
  simp [Sys.init, Sys.holders]

theorem run_preserves (P : Payload T A) (debug : Bool) (acts : List (Action A)) :
    ∀ (s s1 : Sys T A), s.Inv → s.aborted = false → Sys.run P debug s acts = some s1 →
      s1.Inv ∧ s1.aborted = false := by
  induction acts with
  | nil =>
    intro s s1 hinv hab hrun
    simp only [Sys.run] at hrun
    cases hrun
    exact ⟨hinv, hab⟩
  | cons a rest ih =>
    intro s s1 hinv hab hrun
    simp only [Sys.run] at hrun
    split at hrun
    · cases hrun
    · rename_i s2 hstep
      exact ih s2 s1 (step_preserves P debug s s2 a hinv hstep)
        (step_not_aborted P debug s s2 a hinv hstep) hrun

theorem alloc_inplace_was_free (P : Payload T A) (heapOk : Bool) (f : ObjectFactory T)
    (args : A) (i : Nat)
    (h : (ObjectFactory.alloc P heapOk f args).handle = Handle.inplace i) :
    f.flagAt i = false := by
  by_cases hall : ∀ s ∈ f.m_values, s.flag = true
  · rw [alloc_of_all_claimed P heapOk f args hall] at h
    cases heapOk <;> simp at h
  · have hex : ∃ s ∈ f.m_values, s.flag = false := by
      by_contra hne
      apply hall
      intro s hs
      by_contra hflag
      exact hne ⟨s, hs, by simpa using hflag⟩
    obtain ⟨pre, s, post, hf, hpre, hs⟩ := exists_first_free hex
    rw [alloc_of_first_free P heapOk f args pre s post hf hpre hs] at h
    cases h
    have hget : f.m_values[pre.length]? = some s := by
      rw [hf]
      exact getElem?_append_cons_length pre s post
    rw [flagAt_of_getElem? f pre.length s hget, hs]

/-! ## The factory: claims -/

/-- C1. First index wins: when at least one slot is free, `alloc` returns a pointer to the
free slot of lowest index `i` (slot `i` is free, every slot before it is claimed), the
slots afterwards are the old ones with slot `i` claimed and its payload initialised, the
heap is unchanged (no heap instance is created), and `test_and_set` was executed exactly on
the indices `0, 1, ..., i` in this order (each slot at most once, none after the first free
one). -/
theorem alloc_first_index_wins (P : Payload T A) (heapOk : Bool) (f : ObjectFactory T)
    (args : A) (h : ∃ s ∈ f.m_values, s.flag = false) :
    ∃ i s, f.m_values[i]? = some s ∧ s.flag = false ∧
      (∀ j, j < i → ∃ t, f.m_values[j]? = some t ∧ t.flag = true) ∧
      (ObjectFactory.alloc P heapOk f args).handle = Handle.inplace i ∧
      (ObjectFactory.alloc P heapOk f args).factory.m_values =
        f.m_values.set i ⟨true, Object.init_from_factory P args s.obj⟩ ∧
      (ObjectFactory.alloc P heapOk f args).factory.heap = f.heap ∧
      (ObjectFactory.alloc P heapOk f args).visited = List.range (i + 1) := by
  obtain ⟨pre, s, post, hf, hpre, hs⟩ := exists_first_free h
  refine ⟨pre.length, s, ?_, hs, ?_, ?_⟩
  · rw [hf, List.getElem?_append_right (le_refl _)]; simp
  · intro j hj
    refine ⟨pre[j], ?_, hpre _ (List.getElem_mem _)⟩
    rw [hf, List.getElem?_append_left hj, List.getElem?_eq_getElem hj]
  · rw [alloc_of_first_free P heapOk f args pre s post hf hpre hs, hf]
    simp

theorem alloc_first_index_wins_witness :
    (∃ s ∈ factory3.m_values, s.flag = false) ∧
    ∃ i s, factory3.m_values[i]? = some s ∧ s.flag = false ∧
      (∀ j, j < i → ∃ t, factory3.m_values[j]? = some t ∧ t.flag = true) ∧
      (ObjectFactory.alloc natPayload true factory3 7).handle = Handle.inplace i ∧
      (ObjectFactory.alloc natPayload true factory3 7).factory.m_values =
        factory3.m_values.set i ⟨true, Object.init_from_factory natPayload 7 s.obj⟩ ∧
      (ObjectFactory.alloc natPayload true factory3 7).factory.heap = factory3.heap ∧
      (ObjectFactory.alloc natPayload true factory3 7).visited = List.range (i + 1) :=
  ⟨by decide, alloc_first_index_wins natPayload true factory3 7 (by decide)⟩

/-- C2. `alloc` never fails due to pool exhaustion: it returns the null pointer exactly when
every slot is claimed and the heap allocation fails; when every slot is claimed and the heap
allocation succeeds it returns a pointer to a new heap instance holding `T(args...)`. -/
theorem alloc_null_iff (P : Payload T A) (heapOk : Bool) (f : ObjectFactory T) (args : A) :
    ((ObjectFactory.alloc P heapOk f args).handle = Handle.null ↔
      (∀ s ∈ f.m_values, s.flag = true) ∧ heapOk = false) ∧
    ((∀ s ∈ f.m_values, s.flag = true) → heapOk = true →
      (ObjectFactory.alloc P heapOk f args).handle = Handle.inheap f.heap.next ∧
      (ObjectFactory.alloc P heapOk f args).factory.heap.objs =
        (f.heap.next, P.construct args) :: f.heap.objs) := by
  by_cases hall : ∀ s ∈ f.m_values, s.flag = true
  · rw [alloc_of_all_claimed P heapOk f args hall]
    cases heapOk
    · simp; exact hall
    · simp
  · have hex : ∃ s ∈ f.m_values, s.flag = false := by
      by_contra hne
      apply hall
      intro s hs
      by_contra hflag
      exact hne ⟨s, hs, by simpa using hflag⟩
    obtain ⟨pre, s, post, hf, hpre, hs⟩ := exists_first_free hex
    rw [alloc_of_first_free P heapOk f args pre s post hf hpre hs]
    simp [hall]

theorem alloc_null_iff_witness :
    (ObjectFactory.alloc natPayload false factoryFull 7).handle = Handle.null ∧
    (ObjectFactory.alloc natPayload true factoryFull 7).handle = Handle.inheap 0 ∧
    (ObjectFactory.alloc natPayload true factoryFull 7).factory.heap.objs = [(0, 7)] ∧
    (ObjectFactory.alloc natPayload true factory3 7).handle ≠ Handle.null :=
  ⟨(alloc_null_iff natPayload false factoryFull 7).1.2 ⟨by decide, rfl⟩,
    ((alloc_null_iff natPayload true factoryFull 7).2 (by decide) rfl).1,
    ((alloc_null_iff natPayload true factoryFull 7).2 (by decide) rfl).2,
    fun hnull => absurd ((alloc_null_iff natPayload true factory3 7).1.1 hnull).2 (by decide)⟩

/-- C3. Overflow correctness: on a freshly constructed factory of any size `N`, `N + 1`
consecutive `alloc` calls with no release in between and the heap allocation succeeding
return, in call order, pointers to the slots `0, 1, ..., N - 1` (the `k`-th call returns
slot `k - 1`, so the `N` slots are distinct) and then a pointer to a heap instance; afterwards
all `N` slots are claimed. -/
theorem overflow_correctness (P : Payload T A) (N : Nat) (heap : ObjHeap T) (args : List A)
    (hlen : args.length = N + 1) :
    (ObjectFactory.allocMany P true (ObjectFactory.construct P N heap) args).1 =
        (List.range N).map Handle.inplace ++ [Handle.inheap heap.next] ∧
    (∀ t ∈ (ObjectFactory.allocMany P true (ObjectFactory.construct P N heap) args).2.m_values,
        t.flag = true) ∧
    (ObjectFactory.allocMany P true (ObjectFactory.construct P N heap) args).2.m_values.length
        = N := by
  have key := allocMany_from_prefix P N [] heap args (by simp) hlen
  simpa [ObjectFactory.construct, List.range_eq_range'] using key

theorem overflow_correctness_witness :
    [10, 20, 30].length = 2 + 1 ∧
    (ObjectFactory.allocMany natPayload true (ObjectFactory.construct natPayload 2 ⟨4, []⟩)
        [10, 20, 30]).1 =
        (List.range 2).map Handle.inplace ++ [Handle.inheap 4] ∧
    (∀ t ∈ (ObjectFactory.allocMany natPayload true
        (ObjectFactory.construct natPayload 2 ⟨4, []⟩) [10, 20, 30]).2.m_values,
        t.flag = true) ∧
    (ObjectFactory.allocMany natPayload true (ObjectFactory.construct natPayload 2 ⟨4, []⟩)
        [10, 20, 30]).2.m_values.length = 2 :=
  ⟨rfl, overflow_correctness natPayload 2 ⟨4, []⟩ [10, 20, 30] rfl⟩

/-- C4. At-most-one-claim: in every state reached from a freshly constructed factory of size
`N` by any interleaving of `alloc` calls and of `release_to_factory` calls on live handles,
the calls advancing one atomic flag operation at a time, no two live handles point to the
same slot. More precisely a slot has at most one user among the live handles and the calls
in progress, and its flag is claimed while it has one; the assertion of
`release_to_factory` never fails in such a run; and `alloc` never returns a slot whose flag
was claimed when it was called. -/
theorem at_most_one_claim (P : Payload T A) (debug : Bool) (N : Nat) (heap : ObjHeap T)
    (acts : List (Action A)) (s : Sys T A)
    (hrun : Sys.run P debug (Sys.init P N heap) acts = some s) :
    (∀ i, s.live.count (Handle.inplace i) ≤ 1) ∧
    (∀ i, s.holders i ≤ 1 ∧ (1 ≤ s.holders i → s.factory.flagAt i = true)) ∧
    s.aborted = false ∧
    (∀ (f : ObjectFactory T) (heapOk : Bool) (args : A) (i : Nat),
      (ObjectFactory.alloc P heapOk f args).handle = Handle.inplace i →
        f.flagAt i = false) := by
  obtain ⟨hinv, hab⟩ := run_preserves P debug acts _ s (init_inv P N heap) rfl hrun
  have hbound : ∀ i, s.holders i ≤ 1 ∧ (1 ≤ s.holders i → s.factory.flagAt i = true) := by
    intro i
    have hi := hinv i
    cases hfl : s.factory.flagAt i
    · simp only [hfl, Bool.false_eq_true, if_false] at hi
      exact ⟨by omega, fun h1 => by omega⟩
    · simp only [hfl, if_true] at hi
      exact ⟨hi, fun _ => rfl⟩
  refine ⟨fun i => ?_, hbound, hab, fun f heapOk args i h =>
    alloc_inplace_was_free P heapOk f args i h⟩
  have h1 := (hbound i).1
  simp only [Sys.holders] at h1
  omega

theorem at_most_one_claim_witness :
    Sys.run natPayload true (Sys.init natPayload 1 ⟨0, []⟩) raceActs = some raceFinal ∧
    (∀ i, raceFinal.live.count (Handle.inplace i) ≤ 1) ∧
    (∀ i, raceFinal.holders i ≤ 1 ∧
      (1 ≤ raceFinal.holders i → raceFinal.factory.flagAt i = true)) ∧
    raceFinal.aborted = false ∧
    (∀ (f : ObjectFactory Nat) (heapOk : Bool) (args : Nat) (i : Nat),
      (ObjectFactory.alloc natPayload heapOk f args).handle = Handle.inplace i →
        f.flagAt i = false) :=
  ⟨rfl, at_most_one_claim natPayload true 1 ⟨0, []⟩ raceActs raceFinal rfl⟩

/-- C5. Reuse resets state, payload without hooks: for a payload type without hooks, whatever
the factory state (so whether the slot was never used or was used and released before) and
whatever the arguments, the payload reached through the pointer `alloc(args...)` returns is
`T(args...)`, on the pool path and on the heap path alike. The only case without a payload
is the null pointer of a failed heap allocation. -/
theorem alloc_payload_is_fresh (P : Payload T A) (hP : P.hooks = none) (heapOk : Bool)
    (f : ObjectFactory T) (args : A)
    (hnn : (ObjectFactory.alloc P heapOk f args).handle ≠ Handle.null) :
    ObjectFactory.payload (ObjectFactory.alloc P heapOk f args).factory
      (ObjectFactory.alloc P heapOk f args).handle = some (P.construct args) := by
  by_cases hall : ∀ s ∈ f.m_values, s.flag = true
  · rw [alloc_of_all_claimed P heapOk f args hall] at hnn ⊢
    cases heapOk
    · simp at hnn
    · simp [ObjectFactory.payload, List.lookup]
  · have hex : ∃ s ∈ f.m_values, s.flag = false := by
      by_contra hne
      apply hall
      intro s hs
      by_contra hflag
      exact hne ⟨s, hs, by simpa using hflag⟩
    obtain ⟨pre, s, post, hf, hpre, hs⟩ := exists_first_free hex
    rw [alloc_of_first_free P heapOk f args pre s post hf hpre hs]
    simp only [ObjectFactory.payload, getElem?_append_cons_length]
    simp [Object.init_from_factory, hP]

theorem alloc_payload_is_fresh_witness :
    natPayload.hooks = none ∧
    (ObjectFactory.alloc natPayload true factory3 7).handle ≠ Handle.null ∧
    ObjectFactory.payload (ObjectFactory.alloc natPayload true factory3 7).factory
      (ObjectFactory.alloc natPayload true factory3 7).handle = some (natPayload.construct 7) :=
  ⟨rfl, by decide, alloc_payload_is_fresh natPayload rfl true factory3 7 (by decide)⟩

/-- C6. Double release is detected in a debug build. For a pooled handle on slot `i`:
`release_to_factory` stops at its assertion exactly when the flag of slot `i` is free at the
time of the call; when it stops there, the payload of the slot is the one it had before (no
reset); and when a first release completes, a second release through the same handle stops
at the assertion, again without resetting the payload. -/
theorem double_release_detected (P : Payload T A) (f : ObjectFactory T) (i : Nat)
    (hi : i < f.m_values.length) :
    ((∃ f1, ObjectFactory.release_to_factory P true f (Handle.inplace i) = Outcome.fatal f1) ↔
      ∃ s, f.m_values[i]? = some s ∧ s.flag = false) ∧
    (∀ f1, ObjectFactory.release_to_factory P true f (Handle.inplace i) = Outcome.fatal f1 →
      ObjectFactory.payload f1 (Handle.inplace i) =
        ObjectFactory.payload f (Handle.inplace i)) ∧
    (∀ f1, ObjectFactory.release_to_factory P true f (Handle.inplace i) = Outcome.done f1 →
      ∃ f2, ObjectFactory.release_to_factory P true f1 (Handle.inplace i) = Outcome.fatal f2 ∧
        ObjectFactory.payload f2 (Handle.inplace i) =
          ObjectFactory.payload f1 (Handle.inplace i)) := by
  have hs : f.m_values[i]? = some f.m_values[i] := List.getElem?_eq_getElem hi
  cases hflag : f.m_values[i].flag
  · rw [release_inplace_of_free P f i _ hs hflag]
    refine ⟨⟨fun _ => ⟨_, hs, hflag⟩, fun _ => ⟨_, rfl⟩⟩, ?_, ?_⟩
    · intro f1 h1
      cases h1
      simp [ObjectFactory.payload, hi]
    · intro f1 h1
      cases h1
  · rw [release_inplace_of_claimed P f i _ hs hflag]
    refine ⟨⟨fun h => ?_, fun h => ?_⟩, ?_, ?_⟩
    · obtain ⟨f1, h1⟩ := h
      cases h1
    · obtain ⟨s, h1, h2⟩ := h
      rw [hs] at h1
      cases h1
      rw [hflag] at h2
      cases h2
    · intro f1 h1
      cases h1
    · intro f1 h1
      cases h1
      have hs2 : (f.m_values.set i ⟨false, Object.clear_from_factory P f.m_values[i].obj⟩)[i]?
          = some ⟨false, Object.clear_from_factory P f.m_values[i].obj⟩ := by
        simp [hi]
      refine ⟨_, release_inplace_of_free P _ i _ hs2 rfl, ?_⟩
      simp [ObjectFactory.payload, hi]

theorem double_release_detected_witness :
    1 < factory3.m_values.length ∧
    (∃ f1, ObjectFactory.release_to_factory natPayload true factory3 (Handle.inplace 1) =
      Outcome.fatal f1) ∧
    ∃ f2, ObjectFactory.release_to_factory natPayload true
        ⟨[⟨false, 0⟩, ⟨false, 9⟩, ⟨false, 0⟩], ⟨0, []⟩⟩ (Handle.inplace 0) = Outcome.fatal f2 ∧
      ObjectFactory.payload f2 (Handle.inplace 0) =
        ObjectFactory.payload (⟨[⟨false, 0⟩, ⟨false, 9⟩, ⟨false, 0⟩], ⟨0, []⟩⟩ :
          ObjectFactory Nat) (Handle.inplace 0) :=
  ⟨by decide,
    (double_release_detected natPayload factory3 1 (by decide)).1.2 ⟨⟨false, 9⟩, rfl, rfl⟩,
    (double_release_detected natPayload factory3 0 (by decide)).2.2 _ rfl⟩

/-! ## The array: lemmas -/

theorem alloc_inline (d : T) (ok : Bool) (a : Array T) (h : ArrayHeap) (size : Nat)
    (hs : size ≤ a.N) :
    Array.alloc d ok a h size =
      ⟨Values.begin a.inplace, ⟨a.inplace, none⟩, h.release a.inheap⟩ := by
  simp [Array.alloc, hs]

theorem alloc_heap (d : T) (a : Array T) (h : ArrayHeap) (size : Nat) (hs : a.N < size) :
    Array.alloc d true a h size =
      ⟨Ptr.inheap h.next, ⟨a.inplace, some ⟨h.next, List.replicate size d⟩⟩,
        (⟨h.next + 1, h.next :: h.live⟩ : ArrayHeap).release a.inheap⟩ := by
  simp [Array.alloc, Nat.not_le.mpr hs, ArrayHeap.alloc]

theorem alloc_failed (d : T) (a : Array T) (h : ArrayHeap) (size : Nat) (hs : a.N < size) :
    Array.alloc d false a h size = ⟨Ptr.null, ⟨a.inplace, none⟩, h.release a.inheap⟩ := by
  simp [Array.alloc, Nat.not_le.mpr hs]

theorem released_not_live (h : ArrayHeap) (b : HeapArray T) :
    b.addr ∉ (h.release (some b)).live := by
  simp [ArrayHeap.release]

theorem release_next (h : ArrayHeap) (u : Option (HeapArray T)) :
    (h.release u).next = h.next := by
  cases u <;> rfl

theorem set_inline (d : T) (ok : Bool) (a : Array T) (h : ArrayHeap) (src : List T)
    (hs : src.length ≤ a.N) :
    Array.set d ok a h src =
      Outcome.done (⟨src ++ a.inplace.drop src.length, none⟩, h.release a.inheap) := by
  unfold Array.set
  rw [alloc_inline d ok a h src.length hs]
  by_cases h0 : a.inplace.length = 0
  · have hsrc : src.length = 0 := by
      have : src.length ≤ a.inplace.length := hs
      omega
    have hnil : src = [] := List.length_eq_zero.mp hsrc
    have hanil : a.inplace = [] := List.length_eq_zero.mp h0
    simp [Values.begin, Array.write, hnil, hanil]
  · have hs2 : src.length ≤ a.inplace.length := hs
    simp [Values.begin, h0, Array.write, Array.N, hs2]

theorem set_heap (d : T) (a : Array T) (h : ArrayHeap) (src : List T)
    (hs : a.N < src.length) :
    Array.set d true a h src =
      Outcome.done (⟨a.inplace, some ⟨h.next, src⟩⟩,
        (⟨h.next + 1, h.next :: h.live⟩ : ArrayHeap).release a.inheap) := by
  unfold Array.set
  rw [alloc_heap d a h src.length hs]
  simp [Array.write]

theorem set_failed (d : T) (a : Array T) (h : ArrayHeap) (src : List T)
    (hs : a.N < src.length) :
    Array.set d false a h src = Outcome.fatal (⟨a.inplace, none⟩, h.release a.inheap) := by
  unfold Array.set
  rw [alloc_failed d a h src.length hs]
  have hne : src.length ≠ 0 := by omega
  simp [Array.write, hne]

theorem set_inheap_isSome (d : T) (ok : Bool) (a : Array T) (h : ArrayHeap) (src : List T) :
    (Array.set d ok a h src).state.1.inheap.isSome = (decide (a.N < src.length) && ok) := by
  by_cases hs : src.length ≤ a.N
  · rw [set_inline d ok a h src hs]
    simp [Outcome.state, Nat.not_lt.mpr hs]
  · have hlt : a.N < src.length := Nat.lt_of_not_le hs
    cases ok
    · rw [set_failed d a h src hlt]
      simp [Outcome.state]
    · rw [set_heap d a h src hlt]
      simp [Outcome.state, hlt]

/-! ## The array: claims -/

/-- C7. `Array::alloc(size)`: when `size <= N` it returns the inline storage
(`inplace.begin()`), the array holds no heap buffer afterwards, a buffer held before has been
deleted and nothing was allocated; when `size > N` and the allocation succeeds the array
holds a newly allocated heap buffer of exactly `size` elements (whatever the size of a buffer
held before) and `alloc` returns that buffer. The inline elements are untouched in both
cases, and a buffer held before the call is no longer allocated after it. -/
theorem alloc_ensures_capacity (d : T) (ok : Bool) (a : Array T) (h : ArrayHeap) (size : Nat) :
    (size ≤ a.N →
      (Array.alloc d ok a h size).ptr = Values.begin a.inplace ∧
      (Array.alloc d ok a h size).array = ⟨a.inplace, none⟩ ∧
      (Array.alloc d ok a h size).heap.next = h.next) ∧
    (a.N < size → ok = true →
      ∃ b, (Array.alloc d ok a h size).array = ⟨a.inplace, some b⟩ ∧
        b.elems.length = size ∧ b.addr = h.next ∧
        (Array.alloc d ok a h size).ptr = Ptr.inheap b.addr) ∧
    (∀ b0, a.inheap = some b0 → b0.addr ∉ (Array.alloc d ok a h size).heap.live) := by
  refine ⟨?_, ?_, ?_⟩
  · intro hs
    rw [alloc_inline d ok a h size hs]
    exact ⟨rfl, rfl, release_next h a.inheap⟩
  · intro hs hok
    subst hok
    rw [alloc_heap d a h size hs]
    exact ⟨⟨h.next, List.replicate size d⟩, rfl, by simp, rfl, rfl⟩
  · intro b0 hb0
    by_cases hs : size ≤ a.N
    · rw [alloc_inline d ok a h size hs, hb0]
      exact released_not_live h b0
    · cases ok
      · rw [alloc_failed d a h size (Nat.lt_of_not_le hs), hb0]
        exact released_not_live h b0
      · rw [alloc_heap d a h size (Nat.lt_of_not_le hs), hb0]
        exact released_not_live _ b0

theorem alloc_ensures_capacity_witness :
    (3 ≤ arr4.N ∧ (Array.alloc 0 true arr4 heap0 3).array = ⟨arr4.inplace, none⟩) ∧
    (arr4a.N < 5 ∧ ∃ b, (Array.alloc 0 true arr4a heap0 5).array = ⟨arr4a.inplace, some b⟩ ∧
      b.elems.length = 5 ∧ b.addr = heap0.next ∧
      (Array.alloc 0 true arr4a heap0 5).ptr = Ptr.inheap b.addr) ∧
    (1 ≤ arr4b.N ∧ (0 : Nat) ∉ (Array.alloc 0 true arr4b ⟨1, [0]⟩ 1).heap.live) ∧
    Array.set 0 true arr4 heap0 [1, 2, 3] = Outcome.done (arr4a, heap0) ∧
    Array.set 0 true arr4a heap0 [1, 2, 3, 4, 5] = Outcome.done (arr4b, ⟨1, [0]⟩) ∧
    Array.set 0 true arr4b ⟨1, [0]⟩ [9] = Outcome.done (⟨[9, 2, 3, 0], none⟩, ⟨1, []⟩) :=
  ⟨⟨by decide, ((alloc_ensures_capacity 0 true arr4 heap0 3).1 (by decide)).2.1⟩,
    ⟨by decide, (alloc_ensures_capacity 0 true arr4a heap0 5).2.1 (by decide) rfl⟩,
    ⟨by decide, (alloc_ensures_capacity 0 true arr4b ⟨1, [0]⟩ 1).2.2 ⟨0, [1, 2, 3, 4, 5]⟩ rfl⟩,
    by decide, by decide, by decide⟩

/-- C8. Round trip of `set` and `data`: for every array state and every source sequence of
`k` elements, `k <= N` or `k > N` with the heap allocation succeeding, `set` completes and
reading `k` elements through the pointer `data()` returns gives the source elements in
order. The source is a value of its own, so it does not alias the array. -/
theorem set_data_round_trip (d : T) (ok : Bool) (a : Array T) (h : ArrayHeap) (src : List T)
    (hok : a.N < src.length → ok = true) :
    ∃ a1 h1, Array.set d ok a h src = Outcome.done (a1, h1) ∧
      Array.read a1 src.length (Array.data a1) = some src := by
  by_cases hs : src.length ≤ a.N
  · refine ⟨_, _, set_inline d ok a h src hs, ?_⟩
    have hs2 : src.length ≤ a.inplace.length := hs
    by_cases h0 : a.inplace.length = 0
    · have hsrc : src.length = 0 := by omega
      have hnil : src = [] := List.length_eq_zero.mp hsrc
      have hanil : a.inplace = [] := List.length_eq_zero.mp h0
      simp [Array.data, Values.begin, Array.read, hnil, hanil]
    · have hlen : (src ++ List.drop src.length a.inplace).length ≠ 0 := by
        simp only [List.length_append, List.length_drop]
        omega
      have hle : src.length ≤ (src ++ List.drop src.length a.inplace).length := by
        simp
      simp only [Array.data, Values.begin, if_neg hlen, Array.read, Array.N, if_pos hle]
      simp
  · have hlt : a.N < src.length := Nat.lt_of_not_le hs
    have hok1 : ok = true := hok hlt
    subst hok1
    refine ⟨_, _, set_heap d a h src hlt, ?_⟩
    simp [Array.data, Array.read]

theorem set_data_round_trip_witness :
    (arr4.N < [1, 2, 3, 4, 5].length → true = true) ∧
    (∃ a1 h1, Array.set 0 true arr4 heap0 [1, 2, 3, 4, 5] = Outcome.done (a1, h1) ∧
      Array.read a1 [1, 2, 3, 4, 5].length (Array.data a1) = some [1, 2, 3, 4, 5]) ∧
    (∃ a1 h1, Array.set 0 false arr4b ⟨1, [0]⟩ [9, 8] = Outcome.done (a1, h1) ∧
      Array.read a1 [9, 8].length (Array.data a1) = some [9, 8]) :=
  ⟨fun _ => rfl, set_data_round_trip 0 true arr4 heap0 [1, 2, 3, 4, 5] (fun _ => rfl),
    set_data_round_trip 0 false arr4b ⟨1, [0]⟩ [9, 8] (fun hlt => absurd hlt (by decide))⟩

/-- C9. Move transfers heap ownership without copy: when the source holds a heap buffer `b`,
then for every inline capacity `N` of the destination (smaller than, equal to or larger than
the source's) the move constructor and the move assignment complete with the destination
holding that same buffer `b` (same allocation, same elements), the destination's inline
elements not written, the source holding no heap buffer, and nothing allocated. -/
theorem move_transfers_heap (d : T) (ok : Bool) (N : Nat) (this other : Array T)
    (h : ArrayHeap) (b : HeapArray T) (hb : other.inheap = some b) :
    Array.moveConstruct d ok N other h =
      Outcome.done ⟨⟨List.replicate N d, some b⟩, ⟨other.inplace, none⟩, h⟩ ∧
    Array.moveAssign d ok this other h =
      Outcome.done ⟨⟨this.inplace, some b⟩, ⟨other.inplace, none⟩, h.release this.inheap⟩ ∧
    (h.release this.inheap).next = h.next := by
  refine ⟨?_, ?_, release_next h this.inheap⟩
  · simp [Array.moveConstruct, Array.afterMove, hb]
  · simp [Array.moveAssign, Array.afterMove, hb]

theorem move_transfers_heap_witness :
    arr2heap.inheap = some ⟨0, [4, 5, 6]⟩ ∧
    Array.moveConstruct 0 false 1 arr2heap ⟨1, [0]⟩ =
      Outcome.done ⟨⟨List.replicate 1 0, some ⟨0, [4, 5, 6]⟩⟩, ⟨arr2heap.inplace, none⟩,
        ⟨1, [0]⟩⟩ ∧
    Array.moveAssign 0 false arr4 arr2heap ⟨1, [0]⟩ =
      Outcome.done ⟨⟨arr4.inplace, some ⟨0, [4, 5, 6]⟩⟩, ⟨arr2heap.inplace, none⟩,
        (⟨1, [0]⟩ : ArrayHeap).release arr4.inheap⟩ ∧
    ((⟨1, [0]⟩ : ArrayHeap).release arr4.inheap).next = (⟨1, [0]⟩ : ArrayHeap).next :=
  ⟨rfl, move_transfers_heap 0 false 1 arr4 arr2heap ⟨1, [0]⟩ ⟨0, [4, 5, 6]⟩ rfl⟩

/-- C10, as stated, fails: moving an `Array<int, 2>` that holds only inline data into a new
`Array<int, 1>` leaves the destination holding a heap buffer, though the source held none. -/
theorem move_preserves_choice_counterexample :
    ¬ ((Array.moveConstruct 0 true 1 arr2 heap0).state.dest.inheap.isSome = true ↔
      arr2.inheap.isSome = true) := by
  decide

/-- C10, amended. After the move constructor of an `Array<T, N>` from an `Array<T, M>`, the
destination holds a heap buffer exactly when the source held one before, or the source held
none, `M > N` and the heap allocation succeeds (the `M` inline elements then go to a heap
buffer of the destination). In particular the inline/heap choice is preserved whenever
`M <= N`. -/
theorem move_preserves_choice_amended (d : T) (ok : Bool) (N : Nat) (other : Array T)
    (h : ArrayHeap) :
    ((Array.moveConstruct d ok N other h).state.dest.inheap.isSome = true ↔
      other.inheap.isSome = true ∨ (other.inheap = none ∧ N < other.N ∧ ok = true)) ∧
    (other.N ≤ N →
      ((Array.moveConstruct d ok N other h).state.dest.inheap.isSome = true ↔
        other.inheap.isSome = true)) := by
  have main : (Array.moveConstruct d ok N other h).state.dest.inheap.isSome = true ↔
      other.inheap.isSome = true ∨ (other.inheap = none ∧ N < other.N ∧ ok = true) := by
    cases hb : other.inheap with
    | some b =>
      simp [Array.moveConstruct, Array.afterMove, hb, Outcome.state]
    | none =>
      have key := set_inheap_isSome d ok ⟨List.replicate N d, none⟩ h other.inplace
      have hstate : (Array.moveConstruct d ok N other h).state.dest =
          (Array.set d ok ⟨List.replicate N d, none⟩ h other.inplace).state.1 := by
        simp only [Array.moveConstruct, Array.afterMove, hb]
        cases Array.set d ok ⟨List.replicate N d, none⟩ h other.inplace <;> rfl
      rw [hstate, key]
      simp [Array.N]
  refine ⟨main, fun hle => ?_⟩
  rw [main]
  constructor
  · rintro (h1 | ⟨_, h2, _⟩)
    · exact h1
    · omega
  · exact Or.inl

theorem move_preserves_choice_amended_witness :
    arr2.N ≤ 4 ∧
    ((Array.moveConstruct 0 true 4 arr2 heap0).state.dest.inheap.isSome = true ↔
      arr2.inheap.isSome = true) ∧
    ((Array.moveConstruct 0 true 1 arr2 heap0).state.dest.inheap.isSome = true ↔
      arr2.inheap.isSome = true ∨ (arr2.inheap = none ∧ 1 < arr2.N ∧ true = true)) :=
  ⟨by decide, (move_preserves_choice_amended 0 true 4 arr2 heap0).2 (by decide),
    (move_preserves_choice_amended 0 true 1 arr2 heap0).1⟩

/-! ## Allocation failure in `set` -/

/-- C11. Allocation failure in `Array::alloc` and `Array::set`, at the failing input: an
`Array<int, 4>` asked for 5 elements while `new (std::nothrow)` fails. `alloc(5)` returns the
null pointer and the array holds no heap buffer, as claimed; `set` of 5 elements then runs
`std::copy` with that null pointer as destination and stops at the write through it, instead
of reporting the failure to its caller. -/
theorem set_alloc_failure_faults :
    (Array.alloc 0 false arr4 heap0 5).ptr = Ptr.null ∧
    (Array.alloc 0 false arr4 heap0 5).array.inheap = none ∧
    Array.write (Array.alloc 0 false arr4 heap0 5).array [1, 2, 3, 4, 5]
      (Array.alloc 0 false arr4 heap0 5).ptr = Outcome.fatal ⟨arr4.inplace, none⟩ ∧
    Array.set 0 false arr4 heap0 [1, 2, 3, 4, 5] =
      Outcome.fatal (⟨arr4.inplace, none⟩, heap0) := by
  decide

/-! ## The factory: further lemmas -/

theorem split_at_index {α : Type} :
    ∀ (l : List α) (i : Nat) (x : α), l[i]? = some x →
      ∃ pre post, l = pre ++ x :: post ∧ pre.length = i
  | [], _, _, h => by simp at h
  | a :: l, 0, x, h => by
    simp at h
    exact ⟨[], l, by simp [h], rfl⟩
  | a :: l, i + 1, x, h => by
    obtain ⟨pre, post, hl, hlen⟩ := split_at_index l i x (by simpa using h)
    exact ⟨a :: pre, post, by simp [hl], by simp [hlen]⟩

theorem prefix_claimed (vs pre : List (ObjectInPlace T)) (s : ObjectInPlace T)
    (post : List (ObjectInPlace T)) (hvs : vs = pre ++ s :: post)
    (hbefore : ∀ j, j < pre.length → ∃ t, vs[j]? = some t ∧ t.flag = true) :
    ∀ t ∈ pre, t.flag = true := by
  intro t ht
  obtain ⟨j, hj, hget⟩ := List.getElem_of_mem ht
  obtain ⟨u, hu, hflag⟩ := hbefore j hj
  rw [hvs, List.getElem?_append_left hj, List.getElem?_eq_getElem hj, hget] at hu
  cases hu
  exact hflag

theorem release_slot_of_claimed_any (P : Payload T A) (debug : Bool) (s : ObjectInPlace T)
    (h : s.flag = true) :
    ObjectInPlace.release_to_factory P debug s =
      Outcome.done ⟨false, Object.clear_from_factory P s.obj⟩ := by
  cases debug <;>
    simp [ObjectInPlace.release_to_factory, ObjectInPlace.test_and_set, h,
      ObjectInPlace.clear, ObjectInPlace.clear_from_factory]

theorem release_of_split (P : Payload T A) (debug : Bool) (f : ObjectFactory T)
    (pre : List (ObjectInPlace T)) (s : ObjectInPlace T) (post : List (ObjectInPlace T))
    (hf : f.m_values = pre ++ s :: post) (h : s.flag = true) :
    ObjectFactory.release_to_factory P debug f (Handle.inplace pre.length) =
      Outcome.done ⟨pre ++ ⟨false, Object.clear_from_factory P s.obj⟩ :: post, f.heap⟩ := by
  have hget : f.m_values[pre.length]? = some s := by
    rw [hf]; exact getElem?_append_cons_length pre s post
  simp only [ObjectFactory.release_to_factory, hget, release_slot_of_claimed_any P debug s h]
  rw [hf]
  simp

theorem lookup_filter_ne (a b : Nat) :
    ∀ (l : List (Nat × T)),
      (l.filter (fun p => p.1 != a)).lookup b = if b = a then none else l.lookup b
  | [] => by simp
  | (k, v) :: l => by
    have ih := lookup_filter_ne a b l
    by_cases hka : k = a
    · subst hka
      by_cases hbk : b = k
      · subst hbk
        simpa [List.filter_cons] using ih
      · have hne : (b == k) = false := by simpa using hbk
        simp only [List.filter_cons, bne_self_eq_false, Bool.false_eq_true, if_false, ih,
          List.lookup_cons, hne]
    · have hne : (k != a) = true := by simpa using hka
      simp only [List.filter_cons, hne, if_true, List.lookup_cons]
      by_cases hbk : b = k
      · subst hbk
        simp [hka]
      · have hne2 : (b == k) = false := by simpa using hbk
        simp only [hne2, ih]

theorem destroyEach_debug :
    ∀ (l : List (ObjectInPlace T)),
      ObjectFactory.destroyEach true l =
        if (∃ s ∈ l, s.flag = true) then Outcome.fatal () else Outcome.done ()
  | [] => by simp [ObjectFactory.destroyEach]
  | x :: l => by
    have ih := destroyEach_debug l
    cases hx : x.flag
    · have hd : ObjectInPlace.destroy true x = Outcome.done ⟨true, x.obj⟩ := by
        simp [ObjectInPlace.destroy, ObjectInPlace.test_and_set, hx]
      simp only [ObjectFactory.destroyEach, hd, ih]
      by_cases hex : ∃ s ∈ l, s.flag = true
      · have hex2 : ∃ s ∈ x :: l, s.flag = true := by
          obtain ⟨s, hs, hflag⟩ := hex
          exact ⟨s, List.mem_cons_of_mem _ hs, hflag⟩
        rw [if_pos hex, if_pos hex2]
      · have hex2 : ¬ ∃ s ∈ x :: l, s.flag = true := by
          rintro ⟨s, hs, hflag⟩
          rcases List.mem_cons.mp hs with rfl | hs
          · rw [hx] at hflag; cases hflag
          · exact hex ⟨s, hs, hflag⟩
        rw [if_neg hex, if_neg hex2]
    · have hd : ObjectInPlace.destroy true x = Outcome.fatal ⟨true, x.obj⟩ := by
        simp [ObjectInPlace.destroy, ObjectInPlace.test_and_set, hx]
      have hex2 : ∃ s ∈ x :: l, s.flag = true := ⟨x, List.mem_cons_self _ _, hx⟩
      simp only [ObjectFactory.destroyEach, hd]
      rw [if_pos hex2]

theorem destroy_debug (f : ObjectFactory T) :
    ObjectFactory.destroy true f =
      if (∃ s ∈ f.m_values, s.flag = true) then Outcome.fatal f.heap
      else Outcome.done f.heap := by
  unfold ObjectFactory.destroy
  rw [destroyEach_debug]
  by_cases hex : ∃ s ∈ f.m_values, s.flag = true
  · have hex2 : ∃ s ∈ f.m_values.reverse, s.flag = true := by
      obtain ⟨s, hs, hflag⟩ := hex
      exact ⟨s, List.mem_reverse.mpr hs, hflag⟩
    rw [if_pos hex, if_pos hex2]
  · have hex2 : ¬ ∃ s ∈ f.m_values.reverse, s.flag = true := by
      rintro ⟨s, hs, hflag⟩
      exact hex ⟨s, List.mem_reverse.mp hs, hflag⟩
    rw [if_neg hex, if_neg hex2]

/-! ## The factory: claims on reuse, release and destruction -/

/-- C12. Reuse with hooks. For a payload type with hooks and a slot `i` holding payload `x`:
if the slot is free and every slot before it is claimed, `alloc(args...)` returns it and its
payload is the payload's own `init_from_factory(args...)` applied, once, to `x` (`T(args...)`
and assignment play no part); if the slot is claimed, whatever the other slots,
`release_to_factory` on it completes and leaves the payload's own `clear_from_factory()`
applied, once, to `x`; and when every slot before `i` is claimed, the next `alloc(args...)`
returns the slot with payload `init_from_factory(args...)` of `clear_from_factory()` of
`x`. -/
theorem reuse_with_hooks (P : Payload T A) (hk : Hooks T A) (hP : P.hooks = some hk)
    (debug heapOk : Bool) (f : ObjectFactory T) (args : A) (i : Nat) (s : ObjectInPlace T)
    (hs : f.m_values[i]? = some s) :
    (s.flag = false → (∀ j, j < i → ∃ t, f.m_values[j]? = some t ∧ t.flag = true) →
      (ObjectFactory.alloc P heapOk f args).handle = Handle.inplace i ∧
      ObjectFactory.payload (ObjectFactory.alloc P heapOk f args).factory (Handle.inplace i) =
        some (hk.init_from_factory args s.obj)) ∧
    (s.flag = true →
      ∃ f1, ObjectFactory.release_to_factory P debug f (Handle.inplace i) = Outcome.done f1 ∧
        f1.m_values = f.m_values.set i ⟨false, hk.clear_from_factory s.obj⟩ ∧
        ObjectFactory.payload f1 (Handle.inplace i) = some (hk.clear_from_factory s.obj) ∧
        ((∀ j, j < i → ∃ t, f.m_values[j]? = some t ∧ t.flag = true) →
          (ObjectFactory.alloc P heapOk f1 args).handle = Handle.inplace i ∧
          ObjectFactory.payload (ObjectFactory.alloc P heapOk f1 args).factory
            (Handle.inplace i) =
            some (hk.init_from_factory args (hk.clear_from_factory s.obj)))) := by
  obtain ⟨pre, post, hf, hlen⟩ := split_at_index f.m_values i s hs
  subst hlen
  have hclear : Object.clear_from_factory P s.obj = hk.clear_from_factory s.obj := by
    simp [Object.clear_from_factory, hP]
  constructor
  · intro hfree hbefore
    have hpre : ∀ t ∈ pre, t.flag = true := prefix_claimed f.m_values pre s post hf hbefore
    rw [alloc_of_first_free P heapOk f args pre s post hf hpre hfree]
    refine ⟨rfl, ?_⟩
    simp only [ObjectFactory.payload, getElem?_append_cons_length]
    simp [Object.init_from_factory, hP]
  · intro hclaimed
    refine ⟨_, release_of_split P debug f pre s post hf hclaimed, ?_, ?_, ?_⟩
    · rw [hf, hclear]
      simp
    · simp only [ObjectFactory.payload, getElem?_append_cons_length]
      simp [hclear]
    · intro hbefore
      have hpre : ∀ t ∈ pre, t.flag = true := prefix_claimed f.m_values pre s post hf hbefore
      rw [alloc_of_first_free P heapOk ⟨_, f.heap⟩ args pre
        ⟨false, Object.clear_from_factory P s.obj⟩ post rfl hpre rfl]
      refine ⟨rfl, ?_⟩
      simp only [ObjectFactory.payload, getElem?_append_cons_length]
      simp [Object.init_from_factory, hclear, hP]

theorem reuse_with_hooks_witness :
    (ObjectFactory.alloc countingPayload true countingFactory 9).handle = Handle.inplace 1 ∧
    ObjectFactory.payload (ObjectFactory.alloc countingPayload true countingFactory 9).factory
      (Handle.inplace 1) = some (9, 2) ∧
    (∃ f1, ObjectFactory.release_to_factory countingPayload true countingFactory
        (Handle.inplace 0) = Outcome.done f1 ∧
      f1.m_values = countingFactory.m_values.set 0 ⟨false, (0, 3)⟩ ∧
      ObjectFactory.payload f1 (Handle.inplace 0) = some (0, 3) ∧
      ((∀ j, j < 0 → ∃ t, countingFactory.m_values[j]? = some t ∧ t.flag = true) →
        (ObjectFactory.alloc countingPayload true f1 9).handle = Handle.inplace 0 ∧
        ObjectFactory.payload (ObjectFactory.alloc countingPayload true f1 9).factory
          (Handle.inplace 0) = some (9, 4))) ∧
    (∃ f1, ObjectFactory.release_to_factory countingPayload true
        ⟨[⟨false, (0, 1)⟩, ⟨true, (5, 3)⟩], ⟨0, []⟩⟩ (Handle.inplace 1) = Outcome.done f1 ∧
      f1.m_values = [⟨false, (0, 1)⟩, ⟨false, (0, 3)⟩]) :=
  ⟨((reuse_with_hooks countingPayload _ rfl true true countingFactory 9 1 ⟨false, (0, 1)⟩
      rfl).1 rfl (fun j hj => ⟨⟨true, (5, 3)⟩, by
        have h0 : j = 0 := by omega
        subst h0
        exact ⟨rfl, rfl⟩⟩)).1,
    ((reuse_with_hooks countingPayload _ rfl true true countingFactory 9 1 ⟨false, (0, 1)⟩
      rfl).1 rfl (fun j hj => ⟨⟨true, (5, 3)⟩, by
        have h0 : j = 0 := by omega
        subst h0
        exact ⟨rfl, rfl⟩⟩)).2,
    (reuse_with_hooks countingPayload _ rfl true true countingFactory 9 0 ⟨true, (5, 3)⟩
      rfl).2 rfl,
    (fun ⟨f1, h1, h2, _⟩ => ⟨f1, h1, h2⟩)
      ((reuse_with_hooks countingPayload _ rfl true true
        ⟨[⟨false, (0, 1)⟩, ⟨true, (5, 3)⟩], ⟨0, []⟩⟩ 9 1 ⟨true, (5, 3)⟩ rfl).2 rfl)⟩

/-- C13. Releasing a heap instance does not affect any slot: `release_to_factory` through a
pointer to a heap instance completes, the slots (flags and payloads) are what they were, the
instance is gone from the heap and the other heap instances are untouched. In particular,
when every slot is claimed and the heap allocation succeeds, releasing the instance `alloc`
returns leaves the slots as they were before the `alloc`. -/
theorem heap_release_leaves_slots (P : Payload T A) (debug : Bool) (f : ObjectFactory T)
    (a : Nat) (args : A) :
    (∃ f1, ObjectFactory.release_to_factory P debug f (Handle.inheap a) = Outcome.done f1 ∧
      f1.m_values = f.m_values ∧
      ObjectFactory.payload f1 (Handle.inheap a) = none ∧
      ∀ b, b ≠ a →
        ObjectFactory.payload f1 (Handle.inheap b) = ObjectFactory.payload f (Handle.inheap b)) ∧
    ((∀ s ∈ f.m_values, s.flag = true) →
      (ObjectFactory.alloc P true f args).handle = Handle.inheap f.heap.next ∧
      ∃ f1, ObjectFactory.release_to_factory P debug (ObjectFactory.alloc P true f args).factory
          (ObjectFactory.alloc P true f args).handle = Outcome.done f1 ∧
        f1.m_values = f.m_values) := by
  constructor
  · refine ⟨_, rfl, rfl, ?_, ?_⟩
    · simp [ObjectFactory.payload, ObjHeap.delete, lookup_filter_ne]
    · intro b hb
      simp [ObjectFactory.payload, ObjHeap.delete, lookup_filter_ne, hb]
  · intro hall
    rw [alloc_of_all_claimed P true f args hall]
    exact ⟨rfl, _, rfl, rfl⟩

theorem heap_release_leaves_slots_witness :
    (∀ s ∈ factoryOverflown.m_values, s.flag = true) ∧
    (ObjectFactory.alloc natPayload true factoryOverflown 8).handle = Handle.inheap 1 ∧
    ∃ f1, ObjectFactory.release_to_factory natPayload true
        (ObjectFactory.alloc natPayload true factoryOverflown 8).factory
        (ObjectFactory.alloc natPayload true factoryOverflown 8).handle = Outcome.done f1 ∧
      f1.m_values = factoryOverflown.m_values :=
  ⟨by decide, (heap_release_leaves_slots natPayload true factoryOverflown 0 8).2 (by decide)⟩

/-- C16. Destroying a factory with live claims is detected in a debug build: the destructor
of the factory stops at the assertion of a slot destructor exactly when at least one of the
slots is claimed; whether it does is the same whatever heap instances are outstanding, and
the heap is left as it was. -/
theorem destroy_detects_claims (f : ObjectFactory T) (heap : ObjHeap T) :
    ((∃ h, ObjectFactory.destroy true f = Outcome.fatal h) ↔
      ∃ s ∈ f.m_values, s.flag = true) ∧
    ((∃ h, ObjectFactory.destroy true ⟨f.m_values, heap⟩ = Outcome.fatal h) ↔
      ∃ h, ObjectFactory.destroy true f = Outcome.fatal h) ∧
    (ObjectFactory.destroy true f).state = f.heap := by
  have key : ∀ g : ObjectFactory T, (∃ h, ObjectFactory.destroy true g = Outcome.fatal h) ↔
      ∃ s ∈ g.m_values, s.flag = true := by
    intro g
    rw [destroy_debug]
    by_cases hex : ∃ s ∈ g.m_values, s.flag = true
    · rw [if_pos hex]
      exact ⟨fun _ => hex, fun _ => ⟨_, rfl⟩⟩
    · rw [if_neg hex]
      constructor
      · rintro ⟨h, hh⟩
        cases hh
      · intro h
        exact absurd h hex
  refine ⟨key f, ?_, ?_⟩
  · rw [key, key]
  · rw [destroy_debug]
    by_cases hex : ∃ s ∈ f.m_values, s.flag = true
    · rw [if_pos hex]; rfl
    · rw [if_neg hex]; rfl

theorem destroy_detects_claims_witness :
    (∃ h, ObjectFactory.destroy true factory3 = Outcome.fatal h) ∧
    ObjectFactory.destroy true factoryIdle = Outcome.done ⟨1, [(0, 7)]⟩ ∧
    ¬ (∃ h, ObjectFactory.destroy true factoryIdle = Outcome.fatal h) :=
  ⟨(destroy_detects_claims factory3 ⟨0, []⟩).1.2 ⟨⟨true, 5⟩, by decide, rfl⟩,
    by decide,
    fun h => absurd ((destroy_detects_claims factoryIdle ⟨0, []⟩).1.1 h) (by decide)⟩

/-! ## Free slots are idle: lemmas -/

theorem idle_update (P : Payload T A) (s : Sys T A) (hidle : s.IdleInv P) (i : Nat)
    (slot x : ObjectInPlace T) (hslot : s.factory.m_values[i]? = some slot)
    (calls1 : List (Op A)) (heap1 : ObjHeap T) (live1 : List Handle) (ab1 : Bool)
    (hcalls : ∀ j, j ≠ i → Op.unflag j ∈ calls1 → Op.unflag j ∈ s.calls)
    (hx : (x.flag = false ∨ Op.unflag i ∈ calls1) → P.Idle x.obj) :
    Sys.IdleInv P ⟨⟨s.factory.m_values.set i x, heap1⟩, calls1, live1, ab1⟩ := by
  intro j slot1 hslot1 hcond
  have hlt : i < s.factory.m_values.length := (List.getElem?_eq_some.mp hslot).1
  simp only [List.getElem?_set] at hslot1
  by_cases hij : i = j
  · subst hij
    simp only [if_true, eq_self_iff_true, hlt] at hslot1
    cases hslot1
    exact hx hcond
  · simp only [hij, if_false] at hslot1
    rcases hcond with hfree | hmem
    · exact hidle j slot1 hslot1 (Or.inl hfree)
    · exact hidle j slot1 hslot1 (Or.inr (hcalls j (fun h => hij h.symm) hmem))

theorem idle_same_slots (P : Payload T A) (s : Sys T A) (hidle : s.IdleInv P)
    (calls1 : List (Op A)) (heap1 : ObjHeap T) (live1 : List Handle) (ab1 : Bool)
    (hcalls : ∀ j, Op.unflag j ∈ calls1 → Op.unflag j ∈ s.calls) :
    Sys.IdleInv P ⟨⟨s.factory.m_values, heap1⟩, calls1, live1, ab1⟩ := by
  intro j slot1 hslot1 hcond
  rcases hcond with hfree | hmem
  · exact hidle j slot1 hslot1 (Or.inl hfree)
  · exact hidle j slot1 hslot1 (Or.inr (hcalls j hmem))

theorem unflag_mem_set (calls : List (Op A)) (t : Nat) (op1 : Op A) (j : Nat)
    (hne : op1 ≠ Op.unflag j) (h : Op.unflag j ∈ calls.set t op1) : Op.unflag j ∈ calls := by
  rcases List.mem_or_eq_of_mem_set h with h1 | h1
  · exact h1
  · exact absurd h1.symm hne

theorem mem_of_getElem?_eq {α : Type} (l : List α) (t : Nat) (x : α) (h : l[t]? = some x) :
    x ∈ l :=
  List.mem_iff_getElem?.mpr ⟨t, h⟩

theorem clear_from_factory_idle (P : Payload T A) (x : T) :
    P.Idle (Object.clear_from_factory P x) := by
  cases hh : P.hooks with
  | none =>
    left
    simp [Object.clear_from_factory, hh]
  | some hk =>
    right
    exact ⟨hk, x, hh, by simp [Object.clear_from_factory, hh]⟩

theorem stepOp_idle (P : Payload T A) (s s1 : Sys T A) (t : Nat) (heapOk : Bool)
    (op : Op A) (hinv : s.Inv) (hidle : s.IdleInv P) (ht : s.calls[t]? = some op)
    (hstep : Sys.stepOp P s t heapOk op = some s1) : s1.IdleInv P := by
  cases op with
  | scan args it =>
    simp only [Sys.stepOp] at hstep
    split at hstep
    · rename_i slot hslot
      split at hstep
      · cases hstep
        refine idle_update P s hidle it slot _ hslot _ _ _ _
          (fun j _ h => unflag_mem_set s.calls t _ j (by simp) h) ?_
        rintro (hfree | hmem)
        · simp [ObjectInPlace.test_and_set] at hfree
        · exact hidle it slot hslot (Or.inr (unflag_mem_set s.calls t _ it (by simp) hmem))
      · cases hstep
        refine idle_update P s hidle it slot _ hslot _ _ _ _
          (fun j _ h => unflag_mem_set s.calls t _ j (by simp) h) ?_
        rintro (hfree | hmem)
        · simp [ObjectInPlace.test_and_set] at hfree
        · exact hidle it slot hslot (Or.inr (unflag_mem_set s.calls t _ it (by simp) hmem))
    · split at hstep
      · cases hstep
        exact idle_same_slots P s hidle _ _ _ _
          (fun j h => unflag_mem_set s.calls t _ j (by simp) h)
      · cases hstep
        exact idle_same_slots P s hidle _ _ _ _
          (fun j h => unflag_mem_set s.calls t _ j (by simp) h)
  | init args it =>
    simp only [Sys.stepOp] at hstep
    split at hstep
    · cases hstep
    · rename_i slot hslot
      cases hstep
      refine idle_update P s hidle it slot _ hslot _ _ _ _
        (fun j _ h => unflag_mem_set s.calls t _ j (by simp) h) ?_
      intro hcond
      exfalso
      have hfl := flagAt_of_getElem? s.factory it slot hslot
      have hi := hinv it
      have hc := countP_set_add (fun o => Op.holds o it) s.calls t Op.finished _ ht
      simp only [Sys.holders, hfl] at hi
      simp only [holds_init, holds_finished, beq_self_eq_true, if_true, Bool.false_eq_true,
        if_false] at hc
      rcases hcond with hfree | hmem
      · have hfree2 : slot.flag = false := by
          simpa [ObjectInPlace.init_from_factory] using hfree
        simp only [hfree2, Bool.false_eq_true, if_false] at hi
        omega
      · have hpos : 1 ≤ (s.calls.set t Op.finished).countP (fun o => Op.holds o it) :=
          List.countP_pos_iff.mpr ⟨Op.unflag it, hmem, by simp [holds_unflag]⟩
        split at hi <;> omega
  | check i =>
    simp only [Sys.stepOp] at hstep
    split at hstep
    · cases hstep
    · rename_i slot hslot
      split at hstep
      · cases hstep
        refine idle_update P s hidle i slot _ hslot _ _ _ _
          (fun j _ h => unflag_mem_set s.calls t _ j (by simp) h) ?_
        rintro (hfree | hmem)
        · simp [ObjectInPlace.test_and_set] at hfree
        · exact hidle i slot hslot (Or.inr (unflag_mem_set s.calls t _ i (by simp) hmem))
      · cases hstep
        refine idle_update P s hidle i slot _ hslot _ _ _ _
          (fun j _ h => unflag_mem_set s.calls t _ j (by simp) h) ?_
        rintro (hfree | hmem)
        · simp [ObjectInPlace.test_and_set] at hfree
        · exact hidle i slot hslot (Or.inr (unflag_mem_set s.calls t _ i (by simp) hmem))
  | reset i =>
    simp only [Sys.stepOp] at hstep
    split at hstep
    · cases hstep
    · rename_i slot hslot
      cases hstep
      refine idle_update P s hidle i slot _ hslot _ _ _ _
        (fun j hj h => unflag_mem_set s.calls t _ j (by simpa using fun h2 => hj h2.symm) h) ?_
      intro _
      exact clear_from_factory_idle P slot.obj
  | unflag i =>
    simp only [Sys.stepOp] at hstep
    split at hstep
    · cases hstep
    · rename_i slot hslot
      cases hstep
      refine idle_update P s hidle i slot _ hslot _ _ _ _
        (fun j _ h => unflag_mem_set s.calls t _ j (by simp) h) ?_
      intro _
      exact hidle i slot hslot (Or.inr (mem_of_getElem?_eq s.calls t _ ht))
  | finished => simp [Sys.stepOp] at hstep

theorem unflag_mem_append (calls : List (Op A)) (op1 : Op A) (j : Nat)
    (hne : op1 ≠ Op.unflag j) (h : Op.unflag j ∈ calls ++ [op1]) : Op.unflag j ∈ calls := by
  rcases List.mem_append.mp h with h1 | h1
  · exact h1
  · exact absurd (List.mem_singleton.mp h1).symm hne

theorem step_idle (P : Payload T A) (debug : Bool) (s s1 : Sys T A) (a : Action A)
    (hinv : s.Inv) (hidle : s.IdleInv P) (hstep : Sys.step P debug s a = some s1) :
    s1.IdleInv P := by
  cases a with
  | callAlloc args =>
    simp only [Sys.step] at hstep
    split at hstep
    · cases hstep
    · cases hstep
      exact idle_same_slots P s hidle _ _ _ _
        (fun j h => unflag_mem_append s.calls _ j (by simp) h)
  | callRelease k =>
    simp only [Sys.step] at hstep
    split at hstep
    · cases hstep
    · split at hstep
      · cases hstep
      · cases hstep
      · cases hstep
        exact idle_same_slots P s hidle _ _ _ _
          (fun j h => unflag_mem_append s.calls _ j (by cases debug <;> simp) h)
      · cases hstep
        exact idle_same_slots P s hidle _ _ _ _ (fun j h => h)
  | step t heapOk =>
    simp only [Sys.step] at hstep
    split at hstep
    · cases hstep
    · split at hstep
      · cases hstep
      · rename_i op ht
        exact stepOp_idle P s s1 t heapOk op hinv hidle ht hstep

theorem init_idle (P : Payload T A) (N : Nat) (heap : ObjHeap T) :
    (Sys.init P N heap : Sys T A).IdleInv P := by
  intro i slot hslot _
  simp only [Sys.init, ObjectFactory.construct, List.getElem?_replicate] at hslot
  split at hslot
  · cases hslot
    exact Or.inl rfl
  · cases hslot

theorem run_idle (P : Payload T A) (debug : Bool) (acts : List (Action A)) :
    ∀ (s s1 : Sys T A), s.Inv → s.IdleInv P → Sys.run P debug s acts = some s1 →
      s1.IdleInv P := by
  induction acts with
  | nil =>
    intro s s1 _ hidle hrun
    simp only [Sys.run] at hrun
    cases hrun
    exact hidle
  | cons a rest ih =>
    intro s s1 hinv hidle hrun
    simp only [Sys.run] at hrun
    split at hrun
    · cases hrun
    · rename_i s2 hstep
      exact ih s2 s1 (step_preserves P debug s s2 a hinv hstep)
        (step_idle P debug s s2 a hinv hidle hstep) hrun

theorem reset_then_unflag (P : Payload T A) (debug : Bool) (s : Sys T A) (t i : Nat)
    (slot : ObjectInPlace T) (heapOk : Bool) (hab : s.aborted = false)
    (ht : s.calls[t]? = some (Op.reset i)) (hslot : s.factory.m_values[i]? = some slot) :
    ∃ s1, Sys.step P debug s (Action.step t heapOk) = some s1 ∧
      s1.factory.m_values[i]? = some ⟨slot.flag, Object.clear_from_factory P slot.obj⟩ ∧
      s1.calls[t]? = some (Op.unflag i) ∧
      ∃ s2, Sys.step P debug s1 (Action.step t heapOk) = some s2 ∧
        s2.factory.m_values[i]? = some ⟨false, Object.clear_from_factory P slot.obj⟩ ∧
        s2.calls[t]? = some Op.finished := by
  have hlt : i < s.factory.m_values.length := (List.getElem?_eq_some.mp hslot).1
  have htl : t < s.calls.length := (List.getElem?_eq_some.mp ht).1
  have h1 : Sys.step P debug s (Action.step t heapOk) =
      some ⟨⟨s.factory.m_values.set i (ObjectInPlace.clear_from_factory P slot),
        s.factory.heap⟩, s.calls.set t (Op.unflag i), s.live, s.aborted⟩ := by
    simp [Sys.step, hab, ht, Sys.stepOp, hslot]
  have hslot1 : (s.factory.m_values.set i (ObjectInPlace.clear_from_factory P slot))[i]? =
      some (ObjectInPlace.clear_from_factory P slot) := List.getElem?_set_self hlt
  have ht1 : (s.calls.set t (Op.unflag i))[t]? = some (Op.unflag i) :=
    List.getElem?_set_self htl
  refine ⟨_, h1, hslot1, ht1, ?_⟩
  refine ⟨⟨⟨(s.factory.m_values.set i (ObjectInPlace.clear_from_factory P slot)).set i
      (ObjectInPlace.clear (ObjectInPlace.clear_from_factory P slot)), s.factory.heap⟩,
      (s.calls.set t (Op.unflag i)).set t Op.finished, s.live, s.aborted⟩, ?_, ?_, ?_⟩
  · simp [Sys.step, hab, ht1, Sys.stepOp, hslot1]
  · have hlt1 : i < (s.factory.m_values.set i
        (ObjectInPlace.clear_from_factory P slot)).length := by
      rw [List.length_set]; exact hlt
    exact List.getElem?_set_self hlt1
  · have htl1 : t < (s.calls.set t (Op.unflag i)).length := by
      rw [List.length_set]; exact htl
    exact List.getElem?_set_self htl1

/-! ## Free slots are idle: the claim -/

/-- C15. Free slots are idle, and release resets before it publishes. In every state reached
from a freshly constructed factory by any interleaving of `alloc` calls and of
`release_to_factory` calls on live handles (one atomic step at a time, so the states between
the steps of a release are included), a slot whose flag is free holds an idle payload: `T()`
or a value left by `clear_from_factory` (for a payload type without hooks, `T()`). And a
release that is about to reset the payload of slot `i` finds the flag claimed, resets the
payload with the flag still claimed, and only in its next step sets the flag free. -/
theorem free_slots_idle (P : Payload T A) (debug : Bool) (N : Nat) (heap : ObjHeap T)
    (acts : List (Action A)) (s : Sys T A)
    (hrun : Sys.run P debug (Sys.init P N heap) acts = some s) :
    (∀ (i : Nat) (slot : ObjectInPlace T), s.factory.m_values[i]? = some slot → slot.flag = false →
      P.Idle slot.obj ∧ (P.hooks = none → slot.obj = P.construct0)) ∧
    (∀ (t i : Nat) (slot : ObjectInPlace T) (heapOk : Bool), s.calls[t]? = some (Op.reset i) →
      s.factory.m_values[i]? = some slot →
      slot.flag = true ∧
      ∃ s1, Sys.step P debug s (Action.step t heapOk) = some s1 ∧
        s1.factory.m_values[i]? = some ⟨slot.flag, Object.clear_from_factory P slot.obj⟩ ∧
        s1.calls[t]? = some (Op.unflag i) ∧
        ∃ s2, Sys.step P debug s1 (Action.step t heapOk) = some s2 ∧
          s2.factory.m_values[i]? = some ⟨false, Object.clear_from_factory P slot.obj⟩ ∧
          s2.calls[t]? = some Op.finished) := by
  obtain ⟨hinv, hab⟩ := run_preserves P debug acts _ s (init_inv P N heap) rfl hrun
  have hidle := run_idle P debug acts _ s (init_inv P N heap) (init_idle P N heap) hrun
  constructor
  · intro i slot hslot hfree
    have h1 : P.Idle slot.obj := hidle i slot hslot (Or.inl hfree)
    refine ⟨h1, fun hP => ?_⟩
    rcases h1 with h2 | ⟨hk, y, hhk, _⟩
    · exact h2
    · rw [hP] at hhk
      cases hhk
  · intro t i slot heapOk ht hslot
    refine ⟨?_, reset_then_unflag P debug s t i slot heapOk hab ht hslot⟩
    have hi := hinv i
    have hpos := holds_le_countP s.calls t (Op.reset i) i ht (by simp [holds_reset])
    have hfl := flagAt_of_getElem? s.factory i slot hslot
    simp only [Sys.holders, hfl] at hi
    cases hflag : slot.flag
    · simp only [hflag, Bool.false_eq_true, if_false] at hi
      omega
    · rfl

theorem free_slots_idle_witness :
    Sys.run natPayload true (Sys.init natPayload 1 ⟨0, []⟩) releaseActs = some releaseMid ∧
    ((∀ (i : Nat) (slot : ObjectInPlace Nat), releaseMid.factory.m_values[i]? = some slot →
      slot.flag = false →
      natPayload.Idle slot.obj ∧ (natPayload.hooks = none → slot.obj = natPayload.construct0)) ∧
    (∀ (t i : Nat) (slot : ObjectInPlace Nat) (heapOk : Bool),
      releaseMid.calls[t]? = some (Op.reset i) →
      releaseMid.factory.m_values[i]? = some slot →
      slot.flag = true ∧
      ∃ s1, Sys.step natPayload true releaseMid (Action.step t heapOk) = some s1 ∧
        s1.factory.m_values[i]? =
          some ⟨slot.flag, Object.clear_from_factory natPayload slot.obj⟩ ∧
        s1.calls[t]? = some (Op.unflag i) ∧
        ∃ s2, Sys.step natPayload true s1 (Action.step t heapOk) = some s2 ∧
          s2.factory.m_values[i]? =
            some ⟨false, Object.clear_from_factory natPayload slot.obj⟩ ∧
          s2.calls[t]? = some Op.finished)) ∧
    Sys.run countingPayload true (Sys.init countingPayload 1 ⟨0, []⟩) countingActs =
      some countingDone ∧
    countingDone.factory.m_values[0]? = some ⟨false, (0, 1)⟩ ∧
    countingPayload.Idle (0, 1) :=
  ⟨rfl, free_slots_idle natPayload true 1 ⟨0, []⟩ releaseActs releaseMid rfl, rfl, rfl,
    ((free_slots_idle countingPayload true 1 ⟨0, []⟩ countingActs countingDone rfl).1 0
      ⟨false, (0, 1)⟩ rfl rfl).1⟩

/-! ## The storage invariant of the array -/

theorem set_keeps_invariant (d : T) (ok : Bool) (a : Array T) (h : ArrayHeap) (src : List T) :
    (Array.set d ok a h src).state.1.N = a.N ∧
      (Array.set d ok a h src).state.1.HeapOnlyAboveN := by
  by_cases hs : src.length ≤ a.N
  · rw [set_inline d ok a h src hs]
    have hs2 : src.length ≤ a.inplace.length := hs
    refine ⟨?_, ?_⟩
    · simp only [Outcome.state, Array.N, List.length_append, List.length_drop]
      omega
    · intro b hb
      simp [Outcome.state] at hb
  · have hlt : a.N < src.length := Nat.lt_of_not_le hs
    cases ok
    · rw [set_failed d a h src hlt]
      refine ⟨rfl, ?_⟩
      intro b hb
      simp [Outcome.state] at hb
    · rw [set_heap d a h src hlt]
      refine ⟨rfl, ?_⟩
      intro b hb
      simp only [Outcome.state, Option.some.injEq] at hb
      subst hb
      exact hlt

theorem alloc_keeps_invariant (d : T) (ok : Bool) (a : Array T) (h : ArrayHeap) (size : Nat) :
    (Array.alloc d ok a h size).array.N = a.N ∧
      (Array.alloc d ok a h size).array.HeapOnlyAboveN := by
  by_cases hs : size ≤ a.N
  · rw [alloc_inline d ok a h size hs]
    refine ⟨rfl, ?_⟩
    intro b hb
    simp at hb
  · have hlt : a.N < size := Nat.lt_of_not_le hs
    cases ok
    · rw [alloc_failed d a h size hlt]
      refine ⟨rfl, ?_⟩
      intro b hb
      simp at hb
    · rw [alloc_heap d a h size hlt]
      refine ⟨rfl, ?_⟩
      intro b hb
      simp only [Option.some.injEq] at hb
      subst hb
      simpa [Array.N] using hlt

theorem applyOp_keeps_invariant (d : T) (N : Nat) (st : Array T × ArrayHeap) (op : ArrayOp T)
    (hN : st.1.N = N) (hfit : op.fits N = true) :
    (Array.applyOp d st op).state.1.N = N ∧
      (Array.applyOp d st op).state.1.HeapOnlyAboveN := by
  cases op with
  | alloc ok size =>
    have key := alloc_keeps_invariant d ok st.1 st.2 size
    simp only [Array.applyOp, Outcome.state]
    exact ⟨key.1.trans hN, key.2⟩
  | set ok src =>
    have key := set_keeps_invariant d ok st.1 st.2 src
    simp only [Array.applyOp]
    exact ⟨key.1.trans hN, key.2⟩
  | moveFrom ok other =>
    simp only [Array.applyOp, Array.moveAssign, Array.afterMove]
    cases hb : other.inheap with
    | some b =>
      simp only [Outcome.state]
      refine ⟨hN, ?_⟩
      intro b1 hb1
      simp only [Option.some.injEq] at hb1
      subst hb1
      have hfit2 : N < b.elems.length := by
        simpa [ArrayOp.fits, hb] using hfit
      show st.1.inplace.length < b.elems.length
      have hN2 : st.1.inplace.length = N := hN
      omega
    | none =>
      have key := set_keeps_invariant d ok ⟨st.1.inplace, none⟩ (st.2.release st.1.inheap)
        other.inplace
      have hN2 : (⟨st.1.inplace, none⟩ : Array T).N = N := hN
      cases hset : Array.set d ok ⟨st.1.inplace, none⟩ (st.2.release st.1.inheap)
          other.inplace with
      | done r =>
        rw [hset] at key
        exact ⟨key.1.trans hN2, key.2⟩
      | fatal r =>
        rw [hset] at key
        exact ⟨key.1.trans hN2, key.2⟩

theorem runOps_keeps_invariant (d : T) (N : Nat) (ops : List (ArrayOp T)) :
    ∀ (o : Outcome (Array T × ArrayHeap)), o.state.1.N = N → o.state.1.HeapOnlyAboveN →
      (∀ op ∈ ops, ArrayOp.fits N op = true) →
      (Array.runOps d o ops).state.1.N = N ∧ (Array.runOps d o ops).state.1.HeapOnlyAboveN := by
  induction ops with
  | nil =>
    intro o hN hinv _
    cases o <;> exact ⟨hN, hinv⟩
  | cons op rest ih =>
    intro o hN hinv hfit
    cases o with
    | fatal st => exact ⟨hN, hinv⟩
    | done st =>
      have key := applyOp_keeps_invariant d N st op hN (hfit op (List.mem_cons_self _ _))
      simp only [Array.runOps]
      exact ih _ key.1 key.2 (fun op1 h1 => hfit op1 (List.mem_cons_of_mem _ h1))

theorem moveConstruct_eq_moveAssign (d : T) (ok : Bool) (N : Nat) (other : Array T)
    (h : ArrayHeap) :
    Array.moveConstruct d ok N other h =
      Array.moveAssign d ok (Array.construct d N) other h := rfl

/-- C14, as stated, fails: an `Array<int, 2>` that was assigned 3 elements holds them in a
heap buffer; moved into a default-constructed `Array<int, 4>`, the buffer of 3 elements is
what the destination holds and what its `data()` returns, although 3 is not greater than the
destination's inline capacity 4. -/
theorem storage_invariant_counterexample :
    ¬ (Array.runOps 0
        (Outcome.done (Array.construct (0 : Int) 4,
          (Array.set 0 true (Array.construct 0 2) heap0 [4, 5, 6]).state.2))
        [ArrayOp.moveFrom true
          (Array.set 0 true (Array.construct 0 2) heap0 [4, 5, 6]).state.1]).state.1.HeapOnlyAboveN := by
  intro hinv
  have h3 := hinv ⟨0, [4, 5, 6]⟩ rfl
  revert h3
  decide

/-- C14, amended. In every buffer state reached from a default-constructed `Array<T, N>` by
`alloc`, `set` (which is also the assignment from a fixed-size array) and move assignments
from other buffers, a heap buffer is held, and returned by `data()`, only if it has more than
`N` elements, provided that no move takes over a heap buffer of at most `N` elements: moves
from sources holding only inline data are unrestricted, and a move from a source holding a
heap buffer hands that buffer over as it is. The constructors from an array and from
another buffer are `set` and the move assignment on a default-constructed array. -/
theorem storage_invariant_amended (d : T) (N : Nat) (h : ArrayHeap) (ops : List (ArrayOp T))
    (hfit : ∀ op ∈ ops, ArrayOp.fits N op = true) :
    (Array.runOps d (Outcome.done (Array.construct d N, h)) ops).state.1.N = N ∧
    (∀ b, (Array.runOps d (Outcome.done (Array.construct d N, h)) ops).state.1.inheap = some b →
      N < b.elems.length ∧
      (Array.runOps d (Outcome.done (Array.construct d N, h)) ops).state.1.data =
        Ptr.inheap b.addr) ∧
    ((Array.runOps d (Outcome.done (Array.construct d N, h)) ops).state.1.inheap = none →
      (Array.runOps d (Outcome.done (Array.construct d N, h)) ops).state.1.data =
        Values.begin
          (Array.runOps d (Outcome.done (Array.construct d N, h)) ops).state.1.inplace) ∧
    (∀ ok src, Array.constructFrom d ok N h src =
      Array.runOps d (Outcome.done (Array.construct d N, h)) [ArrayOp.set ok src]) ∧
    (∀ ok other, ((Array.moveConstruct d ok N other h).state.dest,
        (Array.moveConstruct d ok N other h).state.heap) =
      (Array.runOps d (Outcome.done (Array.construct d N, h))
        [ArrayOp.moveFrom ok other]).state) := by
  have hN0 : (Outcome.done (Array.construct d N, h) :
      Outcome (Array T × ArrayHeap)).state.1.N = N := by
    simp [Outcome.state, Array.construct, Array.N]
  have hinv0 : (Outcome.done (Array.construct d N, h) :
      Outcome (Array T × ArrayHeap)).state.1.HeapOnlyAboveN := by
    intro b hb
    simp [Outcome.state, Array.construct] at hb
  obtain ⟨k1, k2⟩ := runOps_keeps_invariant d N ops _ hN0 hinv0 hfit
  refine ⟨k1, ?_, ?_, ?_, ?_⟩
  · intro b hb
    refine ⟨?_, ?_⟩
    · have := k2 b hb
      rw [k1] at this
      exact this
    · simp [Array.data, hb]
  · intro hnone
    simp [Array.data, hnone]
  · intro ok src
    simp only [Array.constructFrom, Array.runOps, Array.applyOp]
    cases Array.set d ok (Array.construct d N) h src <;> rfl
  · intro ok other
    rw [moveConstruct_eq_moveAssign]
    simp only [Array.runOps, Array.applyOp]
    cases Array.moveAssign d ok (Array.construct d N) other h <;> rfl

theorem storage_invariant_amended_witness :
    (∀ op ∈ [ArrayOp.set true [1, 2, 3, 4, 5], ArrayOp.moveFrom true arr2,
        ArrayOp.moveFrom true ⟨[7, 8], some ⟨1, [1, 2, 3, 4, 5, 6]⟩⟩],
      ArrayOp.fits 4 op = true) ∧
    (Array.runOps (0 : Int) (Outcome.done (Array.construct 0 4, heap0))
      [ArrayOp.set true [1, 2, 3, 4, 5], ArrayOp.moveFrom true arr2,
        ArrayOp.moveFrom true ⟨[7, 8], some ⟨1, [1, 2, 3, 4, 5, 6]⟩⟩]).state.1.N = 4 ∧
    (Array.runOps (0 : Int) (Outcome.done (Array.construct 0 4, heap0))
      [ArrayOp.set true [1, 2, 3, 4, 5], ArrayOp.moveFrom true arr2,
        ArrayOp.moveFrom true ⟨[7, 8], some ⟨1, [1, 2, 3, 4, 5, 6]⟩⟩]).state.1 =
      ⟨[7, 8, 0, 0], some ⟨1, [1, 2, 3, 4, 5, 6]⟩⟩ :=
  ⟨by decide,
    (storage_invariant_amended (0 : Int) 4 heap0
      [ArrayOp.set true [1, 2, 3, 4, 5], ArrayOp.moveFrom true arr2,
        ArrayOp.moveFrom true ⟨[7, 8], some ⟨1, [1, 2, 3, 4, 5, 6]⟩⟩] (by decide)).1,
    by decide⟩

/-! ## Moves from a source holding only inline data -/

/-- What the moves from an inline-holding source do when no allocation fails. When the
source holds no heap buffer, the move constructor and the move assignment copy its `M` inline
elements, in order, into storage of the destination: to the front of the destination's
inline array when `M <= N`, with no allocation; into a newly allocated heap buffer of
exactly `M` elements when `M > N` and the allocation succeeds. In the move assignment the
buffer the destination held before is deleted first. The source is left as it was. -/
theorem move_inline_copies (d : T) (ok : Bool) (N : Nat) (this other : Array T)
    (h : ArrayHeap) (hsrc : other.inheap = none) :
    (other.N ≤ N →
      Array.moveConstruct d ok N other h =
        Outcome.done ⟨⟨other.inplace ++ (List.replicate N d).drop other.N, none⟩, other, h⟩) ∧
    (N < other.N → ok = true →
      Array.moveConstruct d ok N other h =
        Outcome.done ⟨⟨List.replicate N d, some ⟨h.next, other.inplace⟩⟩, other,
          ⟨h.next + 1, h.next :: h.live⟩⟩) ∧
    (other.N ≤ this.N →
      Array.moveAssign d ok this other h =
        Outcome.done ⟨⟨other.inplace ++ this.inplace.drop other.N, none⟩, other,
          h.release this.inheap⟩) ∧
    (this.N < other.N → ok = true →
      Array.moveAssign d ok this other h =
        Outcome.done ⟨⟨this.inplace, some ⟨h.next, other.inplace⟩⟩, other,
          ⟨h.next + 1, h.next :: (h.release this.inheap).live⟩⟩) := by
  have hother : (⟨other.inplace, none⟩ : Array T) = other := by
    cases other
    simp_all
  refine ⟨?_, ?_, ?_, ?_⟩
  · intro hle
    have hle2 : other.inplace.length ≤ (⟨List.replicate N d, none⟩ : Array T).N := by
      simpa [Array.N] using hle
    simp only [Array.moveConstruct, Array.afterMove, hsrc,
      set_inline d ok ⟨List.replicate N d, none⟩ h other.inplace hle2, hother]
    rfl
  · intro hlt hok
    subst hok
    have hlt2 : (⟨List.replicate N d, none⟩ : Array T).N < other.inplace.length := by
      simpa [Array.N] using hlt
    simp only [Array.moveConstruct, Array.afterMove, hsrc,
      set_heap d ⟨List.replicate N d, none⟩ h other.inplace hlt2, hother]
    rfl
  · intro hle
    have hle2 : other.inplace.length ≤ (⟨this.inplace, none⟩ : Array T).N := hle
    simp only [Array.moveAssign, Array.afterMove, hsrc,
      set_inline d ok ⟨this.inplace, none⟩ _ other.inplace hle2, hother]
    rfl
  · intro hlt hok
    subst hok
    have hlt2 : (⟨this.inplace, none⟩ : Array T).N < other.inplace.length := hlt
    simp only [Array.moveAssign, Array.afterMove, hsrc,
      set_heap d ⟨this.inplace, none⟩ _ other.inplace hlt2, hother, release_next]
    rfl

theorem move_inline_copies_witness :
    arr2.inheap = none ∧
    Array.moveConstruct 0 false 4 arr2 heap0 =
      Outcome.done ⟨⟨[7, 8, 0, 0], none⟩, arr2, heap0⟩ ∧
    Array.moveConstruct 0 true 1 arr2 heap0 =
      Outcome.done ⟨⟨[0], some ⟨0, [7, 8]⟩⟩, arr2, ⟨1, [0]⟩⟩ ∧
    Array.moveAssign 0 false arr4b arr2 ⟨1, [0]⟩ =
      Outcome.done ⟨⟨[7, 8, 3, 0], none⟩, arr2, ⟨1, []⟩⟩ ∧
    Array.moveAssign 0 true ⟨[1], some ⟨0, [4, 5, 6]⟩⟩ arr2 ⟨1, [0]⟩ =
      Outcome.done ⟨⟨[1], some ⟨1, [7, 8]⟩⟩, arr2, ⟨2, [1]⟩⟩ :=
  ⟨rfl,
    (move_inline_copies 0 false 4 arr4 arr2 heap0 rfl).1 (by decide),
    (move_inline_copies 0 true 1 arr4 arr2 heap0 rfl).2.1 (by decide) rfl,
    (move_inline_copies 0 false 4 arr4b arr2 ⟨1, [0]⟩ rfl).2.2.1 (by decide),
    (move_inline_copies 0 true 4 ⟨[1], some ⟨0, [4, 5, 6]⟩⟩ arr2 ⟨1, [0]⟩ rfl).2.2.2
      (by decide) rfl⟩

theorem move_inline_alloc_failure (d : T) (N : Nat) (this other : Array T) (h : ArrayHeap)
    (hsrc : other.inheap = none) :
    (N < other.N →
      Array.moveConstruct d false N other h =
        Outcome.fatal ⟨⟨List.replicate N d, none⟩, other, h⟩) ∧
    (this.N < other.N →
      Array.moveAssign d false this other h =
        Outcome.fatal ⟨⟨this.inplace, none⟩, other, h.release this.inheap⟩) := by
  have hother : (⟨other.inplace, none⟩ : Array T) = other := by
    cases other
    simp_all
  refine ⟨?_, ?_⟩
  · intro hlt
    have hlt2 : (⟨List.replicate N d, none⟩ : Array T).N < other.inplace.length := by
      simpa [Array.N] using hlt
    simp only [Array.moveConstruct, Array.afterMove, hsrc,
      set_failed d ⟨List.replicate N d, none⟩ h other.inplace hlt2, hother]
    rfl
  · intro hlt
    have hlt2 : (⟨this.inplace, none⟩ : Array T).N < other.inplace.length := hlt
    simp only [Array.moveAssign, Array.afterMove, hsrc,
      set_failed d ⟨this.inplace, none⟩ _ other.inplace hlt2, hother]
    rfl

/-- C17. Move from an inline-holding source, at the failing input: an `Array<int, 2>` holding
only its inline elements 7, 8 is moved into an `Array<int, 1>` while `new (std::nothrow)`
fails. The move constructor, and likewise the move assignment, run
`set(_other.inplace.begin(), 2)`, whose `std::copy` writes the two elements through the null
pointer `alloc(2)` returned: nothing is copied into storage of the destination, which holds
neither the elements nor a heap buffer. With the allocation succeeding the same moves put the
two elements into a heap buffer of exactly 2 elements owned by the destination. -/
theorem move_inline_alloc_failure_faults :
    arr2.inheap = none ∧
    (Array.alloc 0 false ⟨[0], none⟩ heap0 2).ptr = Ptr.null ∧
    Array.write ⟨[0], none⟩ arr2.inplace Ptr.null = Outcome.fatal ⟨[0], none⟩ ∧
    Array.moveConstruct 0 false 1 arr2 heap0 = Outcome.fatal ⟨⟨[0], none⟩, arr2, heap0⟩ ∧
    Array.moveAssign 0 false ⟨[1], some ⟨0, [4, 5, 6]⟩⟩ arr2 ⟨1, [0]⟩ =
      Outcome.fatal ⟨⟨[1], none⟩, arr2, ⟨1, []⟩⟩ ∧
    Array.moveConstruct 0 true 1 arr2 heap0 =
      Outcome.done ⟨⟨[0], some ⟨0, [7, 8]⟩⟩, arr2, ⟨1, [0]⟩⟩ := by
  decide

/-! ## The factory: round trip, stale release, frame -/

theorem alloc_head_free (P : Payload T A) (heapOk : Bool) (f : ObjectFactory T) (args : A)
    (s : ObjectInPlace T) (post : List (ObjectInPlace T)) (hf : f.m_values = s :: post)
    (hs : s.flag = false) :
    ObjectFactory.alloc P heapOk f args =
      ⟨Handle.inplace 0, ⟨⟨true, Object.init_from_factory P args s.obj⟩ :: post, f.heap⟩,
        [0]⟩ := by
  have key := alloc_of_first_free P heapOk f args [] s post hf (by simp) hs
  simpa using key

theorem release_head_claimed (P : Payload T A) (debug : Bool) (f : ObjectFactory T)
    (s : ObjectInPlace T) (post : List (ObjectInPlace T)) (hf : f.m_values = s :: post)
    (hs : s.flag = true) :
    ObjectFactory.release_to_factory P debug f (Handle.inplace 0) =
      Outcome.done ⟨⟨false, Object.clear_from_factory P s.obj⟩ :: post, f.heap⟩ := by
  have key := release_of_split P debug f [] s post hf hs
  simpa using key

theorem append_cons_eq_set {α : Type} (pre : List α) (s x : α) (post : List α) :
    pre ++ x :: post = (pre ++ s :: post).set pre.length x := by
  simp

/-- C18. `alloc` followed by release is the identity on the pool. For a payload type without
hooks and a factory in which each free slot holds `T()`: if `alloc(args...)` returns an
instance, `release_to_factory` on it completes and all slots (flags and payloads) are what
they were before the `alloc`, on the pool path (where the heap is untouched too) and on the
heap path alike; if `alloc` returns null (no instance to release), the slots are unchanged as
well. -/
theorem alloc_release_identity (P : Payload T A) (hP : P.hooks = none) (debug heapOk : Bool)
    (f : ObjectFactory T) (args : A)
    (hidle : ∀ s ∈ f.m_values, s.flag = false → s.obj = P.construct0) :
    ((ObjectFactory.alloc P heapOk f args).handle ≠ Handle.null →
      ∃ f1, ObjectFactory.release_to_factory P debug (ObjectFactory.alloc P heapOk f args).factory
          (ObjectFactory.alloc P heapOk f args).handle = Outcome.done f1 ∧
        f1.m_values = f.m_values ∧
        (∀ i, (ObjectFactory.alloc P heapOk f args).handle = Handle.inplace i → f1 = f)) ∧
    ((ObjectFactory.alloc P heapOk f args).handle = Handle.null →
      (ObjectFactory.alloc P heapOk f args).factory = f) := by
  by_cases hall : ∀ s ∈ f.m_values, s.flag = true
  · rw [alloc_of_all_claimed P heapOk f args hall]
    cases heapOk
    · simp
    · refine ⟨fun _ => ⟨_, rfl, rfl, ?_⟩, ?_⟩
      · intro i hi
        simp at hi
      · intro hnull
        simp at hnull
  · have hex : ∃ s ∈ f.m_values, s.flag = false := by
      by_contra hne
      apply hall
      intro s hs
      by_contra hflag
      exact hne ⟨s, hs, by simpa using hflag⟩
    obtain ⟨pre, s, post, hf, hpre, hs⟩ := exists_first_free hex
    rw [alloc_of_first_free P heapOk f args pre s post hf hpre hs]
    have hobj : s.obj = P.construct0 := hidle s (by rw [hf]; simp) hs
    have hback : (⟨false, Object.clear_from_factory P
        (Object.init_from_factory P args s.obj)⟩ : ObjectInPlace T) = s := by
      cases s
      simp_all [Object.clear_from_factory]
    have hrel := release_of_split P debug
      ⟨pre ++ ⟨true, Object.init_from_factory P args s.obj⟩ :: post, f.heap⟩ pre
      ⟨true, Object.init_from_factory P args s.obj⟩ post rfl rfl
    rw [hback] at hrel
    have hfeq : (⟨pre ++ s :: post, f.heap⟩ : ObjectFactory T) = f := by
      cases f
      simp_all
    refine ⟨fun _ => ⟨_, hrel, hf.symm, fun _ _ => hfeq⟩, ?_⟩
    intro hnull
    simp at hnull

theorem alloc_release_identity_witness :
    natPayload.hooks = none ∧
    (∀ s ∈ factoryIdle.m_values, s.flag = false → s.obj = natPayload.construct0) ∧
    (∃ f1, ObjectFactory.release_to_factory natPayload true
        (ObjectFactory.alloc natPayload true factoryIdle 7).factory
        (ObjectFactory.alloc natPayload true factoryIdle 7).handle = Outcome.done f1 ∧
      f1.m_values = factoryIdle.m_values ∧
      (∀ i, (ObjectFactory.alloc natPayload true factoryIdle 7).handle = Handle.inplace i →
        f1 = factoryIdle)) ∧
    (∃ f1, ObjectFactory.release_to_factory natPayload true
        (ObjectFactory.alloc natPayload true factoryOverflown 7).factory
        (ObjectFactory.alloc natPayload true factoryOverflown 7).handle = Outcome.done f1 ∧
      f1.m_values = factoryOverflown.m_values ∧
      (∀ i, (ObjectFactory.alloc natPayload true factoryOverflown 7).handle =
        Handle.inplace i → f1 = factoryOverflown)) :=
  ⟨rfl, by decide,
    (alloc_release_identity natPayload rfl true true factoryIdle 7 (by decide)).1 (by decide),
    (alloc_release_identity natPayload rfl true true factoryOverflown 7 (by decide)).1
      (by decide)⟩

/-- C19. A stale release after re-claim is not detected, in a debug build, on a freshly
constructed factory of any size `n + 1`: `alloc` returns slot 0 (handle `h`); `h` is
released; a second `alloc` returns slot 0 again (handle `h2`, never released below); a
second release through `h` passes the assertion, completes, resets the payload `h2` points
to and frees the slot; and a third `alloc` returns slot 0 once more, so that it and `h2`
are two live handles on the same slot. -/
theorem stale_release_undetected (P : Payload T A) (n : Nat) (heap : ObjHeap T)
    (a1 a2 a3 : A) :
    ∃ f1 f2 f3 f4 f5 : ObjectFactory T,
      (ObjectFactory.alloc P true (ObjectFactory.construct P (n + 1) heap) a1).handle =
        Handle.inplace 0 ∧
      (ObjectFactory.alloc P true (ObjectFactory.construct P (n + 1) heap) a1).factory = f1 ∧
      ObjectFactory.release_to_factory P true f1 (Handle.inplace 0) = Outcome.done f2 ∧
      (ObjectFactory.alloc P true f2 a2).handle = Handle.inplace 0 ∧
      (ObjectFactory.alloc P true f2 a2).factory = f3 ∧
      (∃ x, f3.m_values[0]? = some ⟨true, x⟩ ∧
        ObjectFactory.release_to_factory P true f3 (Handle.inplace 0) = Outcome.done f4 ∧
        f4.m_values[0]? = some ⟨false, Object.clear_from_factory P x⟩) ∧
      (ObjectFactory.alloc P true f4 a3).handle = Handle.inplace 0 ∧
      (ObjectFactory.alloc P true f4 a3).factory = f5 ∧
      ObjectFactory.flagAt f5 0 = true := by
  have h0 : (ObjectFactory.construct P (n + 1) heap).m_values =
      ObjectInPlace.construct P :: List.replicate n (ObjectInPlace.construct P) := by
    simp [ObjectFactory.construct, List.replicate_succ]
  have e1 := alloc_head_free P true _ a1 _ _ h0 rfl
  have e2 := release_head_claimed P true
    (⟨⟨true, Object.init_from_factory P a1 (ObjectInPlace.construct P).obj⟩ ::
      List.replicate n (ObjectInPlace.construct P), heap⟩ : ObjectFactory T) _ _ rfl rfl
  have e3 := alloc_head_free P true
    (⟨⟨false, Object.clear_from_factory P
      (Object.init_from_factory P a1 (ObjectInPlace.construct P).obj)⟩ ::
      List.replicate n (ObjectInPlace.construct P), heap⟩ : ObjectFactory T) a2 _ _ rfl rfl
  have e4 := release_head_claimed P true
    (⟨⟨true, Object.init_from_factory P a2 (Object.clear_from_factory P
      (Object.init_from_factory P a1 (ObjectInPlace.construct P).obj))⟩ ::
      List.replicate n (ObjectInPlace.construct P), heap⟩ : ObjectFactory T) _ _ rfl rfl
  have e5 := alloc_head_free P true
    (⟨⟨false, Object.clear_from_factory P (Object.init_from_factory P a2
      (Object.clear_from_factory P
        (Object.init_from_factory P a1 (ObjectInPlace.construct P).obj)))⟩ ::
      List.replicate n (ObjectInPlace.construct P), heap⟩ : ObjectFactory T) a3 _ _ rfl rfl
  refine ⟨⟨⟨true, Object.init_from_factory P a1 (ObjectInPlace.construct P).obj⟩ ::
      List.replicate n (ObjectInPlace.construct P), heap⟩,
    ⟨⟨false, Object.clear_from_factory P
      (Object.init_from_factory P a1 (ObjectInPlace.construct P).obj)⟩ ::
      List.replicate n (ObjectInPlace.construct P), heap⟩,
    ⟨⟨true, Object.init_from_factory P a2 (Object.clear_from_factory P
      (Object.init_from_factory P a1 (ObjectInPlace.construct P).obj))⟩ ::
      List.replicate n (ObjectInPlace.construct P), heap⟩,
    ⟨⟨false, Object.clear_from_factory P (Object.init_from_factory P a2
      (Object.clear_from_factory P
        (Object.init_from_factory P a1 (ObjectInPlace.construct P).obj)))⟩ ::
      List.replicate n (ObjectInPlace.construct P), heap⟩,
    ⟨⟨true, Object.init_from_factory P a3 (Object.clear_from_factory P
      (Object.init_from_factory P a2 (Object.clear_from_factory P
        (Object.init_from_factory P a1 (ObjectInPlace.construct P).obj))))⟩ ::
      List.replicate n (ObjectInPlace.construct P), heap⟩,
    ?_, ?_, e2, ?_, ?_,
    ⟨Object.init_from_factory P a2 (Object.clear_from_factory P
      (Object.init_from_factory P a1 (ObjectInPlace.construct P).obj)), by simp, e4, by simp⟩,
    ?_, ?_, by simp [ObjectFactory.flagAt]⟩
  · rw [e1]
  · rw [e1]; rfl
  · rw [e3]
  · rw [e3]
  · rw [e5]
  · rw [e5]

/-- C20. `alloc` and pooled release touch one slot only. After `alloc(args...)` every slot
other than the one it returns is what it was (so when it returns a heap instance or null, no
slot has changed), and the number of slots is unchanged; after `release_to_factory` through
a pointer to slot `i`, completed or stopped at the assertion, every slot other than `i` is
what it was, and so is the heap. -/
theorem touch_one_slot (P : Payload T A) (debug heapOk : Bool) (f : ObjectFactory T)
    (args : A) :
    (∀ j, (ObjectFactory.alloc P heapOk f args).handle ≠ Handle.inplace j →
      (ObjectFactory.alloc P heapOk f args).factory.m_values[j]? = f.m_values[j]?) ∧
    (ObjectFactory.alloc P heapOk f args).factory.m_values.length = f.m_values.length ∧
    (∀ i j, j ≠ i →
      (ObjectFactory.release_to_factory P debug f (Handle.inplace i)).state.m_values[j]? =
        f.m_values[j]?) ∧
    (∀ i, (ObjectFactory.release_to_factory P debug f (Handle.inplace i)).state.heap =
      f.heap) := by
  refine ⟨?_, ?_, ?_, ?_⟩
  · by_cases hall : ∀ s ∈ f.m_values, s.flag = true
    · rw [alloc_of_all_claimed P heapOk f args hall]
      cases heapOk <;> simp
    · have hex : ∃ s ∈ f.m_values, s.flag = false := by
        by_contra hne
        apply hall
        intro s hs
        by_contra hflag
        exact hne ⟨s, hs, by simpa using hflag⟩
      obtain ⟨pre, s, post, hf, hpre, hs⟩ := exists_first_free hex
      rw [alloc_of_first_free P heapOk f args pre s post hf hpre hs]
      intro j hj
      have hne : pre.length ≠ j := fun h => hj (by rw [h])
      rw [hf, append_cons_eq_set pre s _ post]
      exact List.getElem?_set_ne hne
  · by_cases hall : ∀ s ∈ f.m_values, s.flag = true
    · rw [alloc_of_all_claimed P heapOk f args hall]
      cases heapOk <;> simp
    · have hex : ∃ s ∈ f.m_values, s.flag = false := by
        by_contra hne
        apply hall
        intro s hs
        by_contra hflag
        exact hne ⟨s, hs, by simpa using hflag⟩
      obtain ⟨pre, s, post, hf, hpre, hs⟩ := exists_first_free hex
      rw [alloc_of_first_free P heapOk f args pre s post hf hpre hs, hf]
      simp
  · intro i j hji
    cases hget : f.m_values[i]? with
    | none => simp only [ObjectFactory.release_to_factory, hget, Outcome.state]
    | some s =>
      cases hrel : ObjectInPlace.release_to_factory P debug s with
      | done s1 =>
        simp only [ObjectFactory.release_to_factory, hget, hrel, Outcome.state]
        exact List.getElem?_set_ne (fun h => hji h.symm)
      | fatal s1 =>
        simp only [ObjectFactory.release_to_factory, hget, hrel, Outcome.state]
        exact List.getElem?_set_ne (fun h => hji h.symm)
  · intro i
    cases hget : f.m_values[i]? with
    | none => simp only [ObjectFactory.release_to_factory, hget, Outcome.state]
    | some s =>
      cases hrel : ObjectInPlace.release_to_factory P debug s with
      | done s1 => simp only [ObjectFactory.release_to_factory, hget, hrel, Outcome.state]
      | fatal s1 => simp only [ObjectFactory.release_to_factory, hget, hrel, Outcome.state]

theorem touch_one_slot_witness :
    (ObjectFactory.alloc natPayload true factory3 7).handle ≠ Handle.inplace 2 ∧
    (ObjectFactory.alloc natPayload true factory3 7).factory.m_values[2]? =
      factory3.m_values[2]? ∧
    (ObjectFactory.alloc natPayload true factory3 7).factory.m_values[0]? =
      factory3.m_values[0]? ∧
    (ObjectFactory.release_to_factory natPayload true factory3
      (Handle.inplace 0)).state.m_values[1]? = factory3.m_values[1]? :=
  ⟨by decide,
    (touch_one_slot natPayload true true factory3 7).1 2 (by decide),
    (touch_one_slot natPayload true true factory3 7).1 0 (by decide),
    (touch_one_slot natPayload true true factory3 7).2.2.1 0 1 (by decide)⟩

end InPlace
